import Mathlib

/-!
Verification of the import-resolution engine of the `whoimportme` CLI
(`src/resolver.ts`): `resolveImportPath`, `findImporters` and
`findDirectoryImporters`, together with the posix path arithmetic from
`deno std path` that they use (`resolve`, `dirname`, `join`, `relative`).

The file system is modelled as an explicit state (`FS`): every path is in
one of four states (regular file, directory, absent, or erroring — a stat
or existence probe on an erroring path throws, modelling permission
failures). File reads combined with the line-regex import extraction of
`parseImports` are modelled as an oracle field of `FS`; none of the
properties proved here depend on the internals of the extraction regexes,
so every theorem about `findImporters` and `findDirectoryImporters` holds
for an arbitrary extraction oracle.

Fallible code returns `Except JsErr`; a JavaScript `try`/`catch` becomes a
`match` on the `Except` value.  `console.warn`/`console.error` calls are
modelled as a list of `LogEntry` values accumulated alongside results.
-/

namespace WhoImportMe

/-- Boolean string prefix test, modelling JavaScript `String.prototype.startsWith`. -/
def strStartsWith (s pre : String) : Bool := pre.data.isPrefixOf s.data

/-- Characters escaped by the second `replace` in `resolveImportPath`
(the JS character class used there, written out as characters). -/
def metaChars : List Char :=
  ['-', '/', '\\', '^', '$', '*', '+', '?', '.', '(', ')', '|', '[', ']', '\x7b', '\x7d']

/-! ## Posix path arithmetic (deno std `path/posix`) -/

/-- Split a character list on the separator char, posix-component style.
Models the component view taken by `normalizeString` in deno std path. -/
def splitSlashAux : List Char → List Char → List (List Char)
  | [], acc => [acc.reverse]
  | c :: rest, acc => if c = '/' then acc.reverse :: splitSlashAux rest [] else splitSlashAux rest (c :: acc)

/-- Split on separators; "a//b" yields ["a", "", "b"]. -/
def splitSlash (s : List Char) : List (List Char) := splitSlashAux s []

/-- One step of `normalizeString` from deno std path: drop empty and "."
components, resolve ".." against the accumulator (which stores components in
reverse).  `aar` is the `allowAboveRoot` flag. -/
def normStep (aar : Bool) (acc : List (List Char)) (comp : List Char) : List (List Char) :=
  if comp = [] ∨ comp = ['.'] then acc
  else if comp = ['.', '.'] then
    if acc = [] then (if aar then [['.', '.']] else [])
    else if acc.head? = some ['.', '.'] then (if aar then comp :: acc else acc)
    else acc.tail
  else comp :: acc

/-- Normalize a component list (the component-level content of
`normalizeString` in deno std path). -/
def normComps (aar : Bool) (comps : List (List Char)) : List (List Char) :=
  (comps.foldl (normStep aar) []).reverse

/-- Join components back with separators. -/
def joinComps (comps : List (List Char)) : String :=
  String.mk (List.intercalate ['/'] comps)

/-- Absolute-path test on the raw string (leading separator). -/
def isAbsStr (s : String) : Bool := strStartsWith s "/"

/-- Right-to-left accumulation loop of posix `resolve`: segments are
prepended (each followed by a separator) until an absolute one is hit.
The input list is the reversed segment list. -/
def resolveLoop (acc : String) : List String → String × Bool
  | [] => (acc, false)
  | p :: rest =>
    if p = "" then resolveLoop acc rest
    else
      let acc2 := p ++ "/" ++ acc
      if isAbsStr p then (acc2, true) else resolveLoop acc2 rest

/-- Posix `resolve(...segments)` from deno std path, with the process
working directory passed explicitly (`Deno.cwd()` in the source). -/
def resolvePosix (cwd : String) (segs : List String) : String :=
  let r1 := resolveLoop "" segs.reverse
  let r2 := if r1.2 then r1 else (if cwd = "" then r1 else (cwd ++ "/" ++ r1.1, isAbsStr cwd))
  let comps := normComps (!r2.2) (splitSlash r2.1.data)
  let norm := joinComps comps
  if r2.2 then (if norm = "" then "/" else "/" ++ norm)
  else if norm = "" then "." else norm

/-- Posix `dirname` from deno std path.  The scan skips trailing
separators, then the final component; the leading character is never the
cut point, and a root-adjacent cut at index 1 returns "//". -/
def dirnameP (p : String) : String :=
  match p.data with
  | [] => "."
  | c0 :: rest =>
    let hasRoot := c0 = '/'
    let r1 := rest.reverse.dropWhile (fun c => c = '/')
    let r2 := r1.dropWhile (fun c => c ≠ '/')
    match r2 with
    | [] => if hasRoot then "/" else "."
    | _ :: r3 =>
      if hasRoot ∧ r3 = [] then "//"
      else String.mk (c0 :: r3.reverse)

/-- Posix `normalize` from deno std path (used by `join`). -/
def normalizePosix (p : String) : String :=
  if p = "" then "."
  else
    let isAbs := isAbsStr p
    let trailingSep := p.data.getLast? = some '/'
    let comps := normComps (!isAbs) (splitSlash p.data)
    let n1 := joinComps comps
    let n2 := if n1 = "" ∧ ¬ isAbs then "." else n1
    let n3 := if n2 ≠ "" ∧ trailingSep then n2 ++ "/" else n2
    if isAbs then "/" ++ n3 else n3

/-- Posix `join` from deno std path, restricted to two segments (the
source only ever joins two). -/
def joinPosix (a b : String) : String :=
  match [a, b].filter (fun s => s ≠ "") with
  | [] => "."
  | parts => normalizePosix (String.intercalate "/" parts)

/-- Length of the longest common component run. -/
def commonLen : List (List Char) → List (List Char) → Nat
  | a :: as, b :: bs => if a = b then commonLen as bs + 1 else 0
  | _, _ => 0

/-- Posix `relative(src, dst)` from deno std path.  Both arguments are
first passed through `resolve` (exactly as std does); on the resulting
normalized absolute paths the char-scanning algorithm of std is
equivalent to the component-wise form used here: drop the common
component run, emit ".." for each remaining source component, then the
remaining destination components. -/
def relativePosix (cwd src dst : String) : String :=
  let f := resolvePosix cwd [src]
  let t := resolvePosix cwd [dst]
  if f = t then ""
  else
    let fc := (splitSlash f.data).filter (fun c => c ≠ [])
    let tc := (splitSlash t.data).filter (fun c => c ≠ [])
    let k := commonLen fc tc
    String.mk (List.intercalate ['/'] (((fc.drop k).map (fun _ => ['.', '.'])) ++ tc.drop k))

/-! ## Data model (src/resolver.ts interfaces) -/

/-- JavaScript error taxonomy relevant to the source: `Deno.errors.NotFound`
versus any other thrown error. Both carry a message. -/
inductive JsErr where
  | notFound (msg : String)
  | generic (msg : String)
deriving DecidableEq, Repr

/-- Console log levels used by the source (`console.warn` / `console.error`). -/
inductive LogLevel where
  | warn
  | error
deriving DecidableEq, Repr

/-- One console message emitted during a scan. -/
structure LogEntry where
  level : LogLevel
  msg : String
deriving DecidableEq, Repr

/-- Interface `ImportMap`: the `imports` field is optional; entries model
`Object.entries` of the parsed JSON object — insertion-ordered pairs with
unique keys.  The `scopes` field is never read by the source and is omitted. -/
structure ImportMap where
  imports : Option (List (String × String))
deriving DecidableEq, Repr

/-- Interface `TsConfig.compilerOptions`. `paths` entries likewise model
`Object.entries` of the JSON object. -/
structure CompilerOptions where
  baseUrl : Option String
  paths : Option (List (String × List String))
deriving DecidableEq, Repr

/-- Interface `TsConfig`. -/
structure TsConfig where
  compilerOptions : Option CompilerOptions
deriving DecidableEq, Repr

/-- Kind tag of interface `ImportStatement`. -/
inductive ImpKind where
  | es6
  | commonjs
deriving DecidableEq, Repr

/-- Interface `ImportStatement` produced by `parseImports`. -/
structure ImportStatement where
  type : ImpKind
  module : String
  isDynamic : Bool
  lineNumber : Nat
deriving DecidableEq, Repr

/-- Interface `ResolvedImport`. -/
structure ResolvedImport where
  sourceFile : String
  importPath : String
  resolvedPath : String
  lineNumber : Nat
deriving DecidableEq, Repr

/-- Interface `Importer` (from output.ts). -/
structure Importer where
  sourceFile : String
  importPath : String
  lineNumber : Nat
deriving DecidableEq, Repr

/-- Interface `ImportGroup` (from output.ts). -/
structure ImportGroup where
  importedFile : String
  importers : List Importer
deriving DecidableEq, Repr

/-- Interface `DirectoryImporterResult` (from output.ts). -/
structure DirectoryImporterResult where
  target : String
  root : String
  count : Nat
  groups : List ImportGroup
deriving DecidableEq, Repr

/-- State of one path in the file-system snapshot.  `err` models a path on
which `Deno.statSync` (and hence `existsSync`, which rethrows non-NotFound
errors) throws a non-NotFound error such as `PermissionDenied`. -/
inductive PathState where
  | file
  | dir
  | absent
  | err
deriving DecidableEq, Repr

/-- File-system snapshot plus process state.  `st` gives the state of each
canonical absolute path.  `readImports` is the oracle for `parseImports`
on an existing file: reading the content and running the line-oriented
extraction regexes; its internals are not needed by any property proved
here, so theorems quantify over it.  `loadImportMapR`/`loadTsConfigR` are
the oracles for `loadImportMap`/`loadTsConfig` at a given root. -/
structure FS where
  cwd : String
  st : String → PathState
  readImports : String → Except JsErr (List ImportStatement)
  loadImportMapR : String → Except JsErr (Option ImportMap)
  loadTsConfigR : String → Except JsErr (Option TsConfig)

/-- Canonical absolute form of a path (what the OS resolves it to). -/
def FS.canon (fs : FS) (p : String) : String := resolvePosix fs.cwd [p]

/-- State of the path after OS-level resolution. -/
def FS.stA (fs : FS) (p : String) : PathState := fs.st (fs.canon p)

/-- Models `existsSync` from deno std fs: true for files and directories,
false when absent, and rethrows other stat errors. -/
def FS.existsE (fs : FS) (p : String) : Except JsErr Bool :=
  match fs.stA p with
  | .file => .ok true
  | .dir => .ok true
  | .absent => .ok false
  | .err => .error (.generic ("stat error: " ++ p))

/-- Models `Deno.statSync(p).isDirectory`: NotFound on absent paths,
another error on erroring paths. -/
def FS.statIsDirE (fs : FS) (p : String) : Except JsErr Bool :=
  match fs.stA p with
  | .file => .ok false
  | .dir => .ok true
  | .absent => .error (.notFound ("stat not found: " ++ p))
  | .err => .error (.generic ("stat error: " ++ p))

/-! ## resolveImportPath (src/resolver.ts lines 280-412) -/

/-- The fixed probe-extension list of the source. -/
def extensions : List String := [".ts", ".tsx", ".js", ".jsx", ".mjs", ".cjs"]

/-- Models the JS regex test `/\.[^\/.]+$/.test(s)`: the string ends in a
dot followed by one or more characters none of which is a dot or a
separator. -/
def hasExtensionB (s : String) : Bool :=
  let r := s.data.reverse
  let t := r.takeWhile (fun c => c ≠ '.' ∧ c ≠ '/')
  (!t.isEmpty) && ((r.drop t.length).head? == some '.')

/-- Models `s.replace(/\.[^\/.]+$/, "")`: strip the final extension when
the regex matches, otherwise leave the string unchanged. -/
def stripExtension (s : String) : String :=
  let r := s.data.reverse
  let t := r.takeWhile (fun c => c ≠ '.' ∧ c ≠ '/')
  String.mk ((r.drop (t.length + 1)).reverse)

/-- The `base` computed by the source before extension probing:
`hasExtension ? s.replace(/\.[^\/.]+$/, "") : s`. -/
def extBase (s : String) : String :=
  if hasExtensionB s then stripExtension s else s

/-- Property lookup `obj[key]` on an insertion-ordered object entry list
with unique keys. -/
def lookupEntry : List (String × String) → String → Option String
  | [], _ => none
  | (k, v) :: rest, key => if k = key then some v else lookupEntry rest key

/-- The prefix-match loop over `Object.entries(importMap.imports)`
(lines 295-300): first entry whose key is a string prefix of the
specifier wins; the remainder is appended as a third `resolve` segment. -/
def aliasPrefixLoop (cwd importerPath importPath : String) :
    List (String × String) → Option String
  | [] => none
  | (k, v) :: rest =>
    if strStartsWith importPath k then
      some (resolvePosix cwd [dirnameP importerPath, v, String.mk (importPath.data.drop k.data.length)])
    else aliasPrefixLoop cwd importerPath importPath rest

/-- Import-map handling (lines 288-301).  Note the exact-match test is a
JS truthiness check `if (importMap.imports[importPath])`: a key mapped to
the empty string fails it and falls through to the prefix loop. -/
def aliasStage (cwd importerPath importPath : String) (importMap : Option ImportMap) :
    Option String :=
  match importMap with
  | none => none
  | some im =>
    match im.imports with
    | none => none
    | some entries =>
      match lookupEntry entries importPath with
      | some repl =>
        if repl = "" then aliasPrefixLoop cwd importerPath importPath entries
        else some (resolvePosix cwd [dirnameP importerPath, repl])
      | none => aliasPrefixLoop cwd importerPath importPath entries

/-- First transformation applied to a tsconfig paths pattern:
`pattern.replace(/\*/g, "(.*)")`. -/
def starToGroup : List Char → List Char
  | [] => []
  | c :: rest =>
    if c = '*' then '(' :: '.' :: '*' :: ')' :: starToGroup rest
    else c :: starToGroup rest

/-- Second transformation: `.replace(/[-\/\\^$*+?.()|[\]\x7b\x7d]/g, "\\$&")`,
inserting a backslash before every regex metacharacter of the current
string — including the characters of any `(.*)` just produced by
`starToGroup`, which is the wildcard-handling slip analysed below. -/
def escapeRegexChars (s : List Char) : List Char :=
  (s.map (fun c => if c ∈ metaChars then ['\\', c] else [c])).flatten

/-- Semantics of the regex `^e$` for the escaped pattern `e` produced by
`escapeRegexChars`: every metacharacter in `e` is backslash-escaped, so
the regex is a literal matching exactly one string — `e` with each escape
backslash removed.  This function computes that unique matched string. -/
def regexLiteralOf : List Char → List Char
  | [] => []
  | '\\' :: c :: rest => c :: regexLiteralOf rest
  | c :: rest => c :: regexLiteralOf rest

/-- Result of `importPath.match(new RegExp("^" + regexPattern + "$"))
!== null` for the regex the source builds from a tsconfig paths pattern
(lines 312-319).  Because the escape pass runs after the wildcard pass,
the regex contains no capture groups and matches exactly one literal
string. -/
def tsPatternMatches (pattern specifier : String) : Bool :=
  specifier.data = regexLiteralOf (escapeRegexChars (starToGroup pattern.data))

/-- The loop over `Object.entries(tsConfig.compilerOptions.paths)`
(lines 307-329).  A matching pattern with an empty replacement list falls
through to the next pattern.  Since the built regex never contains a
capture group, `match.length > 1` is always false and the replacement
template is used verbatim (its `*` is never substituted). -/
def tsPathsLoop (cwd importerPath baseUrl spec : String) :
    List (String × List String) → Option String
  | [] => none
  | (pat, repls) :: rest =>
    if tsPatternMatches pat spec then
      match repls with
      | [] => tsPathsLoop cwd importerPath baseUrl spec rest
      | r :: _ => some (resolvePosix cwd [dirnameP importerPath, baseUrl, r])
    else tsPathsLoop cwd importerPath baseUrl spec rest

/-- Tsconfig-paths handling (lines 304-330).  The guard is the JS
truthiness test `tsConfig?.compilerOptions?.paths &&
tsConfig.compilerOptions.baseUrl`: `paths` must be present and `baseUrl`
must be present and non-empty. -/
def tsStage (cwd importerPath importPath : String) (tsConfig : Option TsConfig) :
    Option String :=
  match tsConfig with
  | none => none
  | some tc =>
    match tc.compilerOptions with
    | none => none
    | some co =>
      match co.paths, co.baseUrl with
      | some ps, some bu =>
        if bu = "" then none
        else tsPathsLoop cwd importerPath bu importPath ps
      | _, _ => none

/-- Extension-probe loop (lines 362-367 and 391-396): first `base ++ ext`
that exists wins; an existence probe that throws propagates. -/
def extLoopE (fs : FS) (base : String) : List String → Except JsErr (Option String)
  | [] => .ok none
  | ext :: rest =>
    match fs.existsE (base ++ ext) with
    | .ok true => .ok (some (base ++ ext))
    | .ok false => extLoopE fs base rest
    | .error e => .error e

/-- Index-file loop inside the inner `try` of the relative branch
(lines 350-355).  An existence probe that throws is swallowed by the
inner `catch`, aborting the whole index lookup. -/
def indexLoop (fs : FS) (resolved : String) : List String → Option String
  | [] => none
  | ext :: rest =>
    match fs.existsE (joinPosix resolved ("index" ++ ext)) with
    | .ok true => some (joinPosix resolved ("index" ++ ext))
    | .ok false => indexLoop fs resolved rest
    | .error _ => none

/-- The inner `try { Deno.statSync(resolved) ... } catch {}` block of the
relative branch (lines 347-359): any error — stat failure or a throwing
existence probe — yields nothing and control continues after the block. -/
def indexProbe (fs : FS) (resolved : String) : Option String :=
  match fs.statIsDirE resolved with
  | .error _ => none
  | .ok isDir => if isDir then indexLoop fs resolved extensions else none

/-- Body of `resolveImportPath` (the content of its `try` block,
lines 286-404).  Errors escaping this body are what the outer `catch`
turns into `null`. -/
def resolveImportPathE (fs : FS) (importerPath importPath : String)
    (importMap : Option ImportMap) (tsConfig : Option TsConfig) :
    Except JsErr (Option String) := do
  match aliasStage fs.cwd importerPath importPath importMap with
  | some r => return some r
  | none =>
  match tsStage fs.cwd importerPath importPath tsConfig with
  | some r => return some r
  | none =>
  if strStartsWith importPath "./" || strStartsWith importPath "../" then
    let resolved := resolvePosix fs.cwd [dirnameP importerPath, importPath]
    let e ← fs.existsE resolved
    if e then return some resolved
    let hasExt := hasExtensionB resolved
    let base := extBase resolved
    match indexProbe fs resolved with
    | some ip => return some ip
    | none =>
    match ← extLoopE fs base extensions with
    | some w => return some w
    | none =>
    if !hasExt then
      let _ ← fs.existsE resolved
      return some resolved
    else
      return some resolved
  else if strStartsWith importPath "/" then
    let e ← fs.existsE importPath
    if e then return some importPath
    let base := extBase importPath
    match ← extLoopE fs base extensions with
    | some w => return some w
    | none => return none
  else
    return none

/-- `resolveImportPath` (lines 280-412): the outer `catch` maps any error
from the body to `null`. -/
def resolveImportPath (fs : FS) (importerPath importPath : String)
    (importMap : Option ImportMap) (tsConfig : Option TsConfig) : Option String :=
  match resolveImportPathE fs importerPath importPath importMap tsConfig with
  | .ok r => r
  | .error _ => none

/-- The `console.error` emitted by the outer `catch` of
`resolveImportPath` when the body throws (lines 406-409). -/
def resolveLogOf (fs : FS) (importerPath importPath : String)
    (importMap : Option ImportMap) (tsConfig : Option TsConfig) : List LogEntry :=
  match resolveImportPathE fs importerPath importPath importMap tsConfig with
  | .ok _ => []
  | .error _ =>
    [⟨.error, "Error resolving import path " ++ importPath ++ " in " ++ importerPath⟩]

/-! ## findImporters (src/resolver.ts lines 423-563) -/

/-- `parseImports` outcome for a candidate file, as consumed by the
matchers.  The source checks `existsSync` itself before calling
`parseImports`, so only the read-and-extract part — the oracle — is
reached there. -/
def parseImportsE (fs : FS) (p : String) : Except JsErr (List ImportStatement) :=
  fs.readImports p

/-- Import-map loading inside `findImporters`/`findDirectoryImporters`
(lines 434-441): a load failure is downgraded to a warning and `null`. -/
def loadedImportMap (fs : FS) (rootPath : String) : Option ImportMap × List LogEntry :=
  match fs.loadImportMapR rootPath with
  | .ok m => (m, [])
  | .error _ => (none, [⟨.warn, "Warning: Could not load import map"⟩])

/-- Tsconfig loading inside the matchers (lines 443-447), same policy. -/
def loadedTsConfig (fs : FS) (rootPath : String) : Option TsConfig × List LogEntry :=
  match fs.loadTsConfigR rootPath with
  | .ok m => (m, [])
  | .error _ => (none, [⟨.warn, "Warning: Could not load tsconfig"⟩])

/-- Target normalization of `findImporters` (lines 449-487): stat the
resolved target (errors caught: treated as not-a-directory), and for file
targets probe the extension list when the literal path does not exist;
when nothing is found throw `NotFound`.  Returns the normalized target
path and the directory flag. -/
def normalizeTargetE (fs : FS) (targetFilePath : String) : Except JsErr (String × Bool) := do
  let ntp0 := resolvePosix fs.cwd [targetFilePath]
  let isDir := match fs.statIsDirE ntp0 with
    | .ok b => b
    | .error _ => false
  if isDir then return (ntp0, true)
  let e ← fs.existsE ntp0
  if e then return (ntp0, false)
  match ← extLoopE fs (extBase ntp0) extensions with
  | some w => return (w, false)
  | none => .error (.notFound ("Target file not found: " ++ targetFilePath))

/-- Match test applied to a resolved import (lines 529-551): prefix
containment for directory targets, exact equality for file targets, both
on the re-resolved path. -/
def matchesTarget (fs : FS) (ntp : String) (isDir : Bool) (resolvedPath : String) : Bool :=
  if isDir then strStartsWith (fs.canon resolvedPath) ntp
  else fs.canon resolvedPath = ntp

/-- Per-import-statement loop of `findImporters` (lines 514-552):
dynamic imports are skipped, each remaining specifier is resolved (the
resolver logs but never throws), and a match is recorded. -/
def importsFold (fs : FS) (im : Option ImportMap) (tc : Option TsConfig)
    (ntp : String) (isDir : Bool) (filePath : String) :
    List ImportStatement → List ResolvedImport × List LogEntry
  | [] => ([], [])
  | imp :: rest =>
    let acc := importsFold fs im tc ntp isDir filePath rest
    if imp.isDynamic then acc
    else
      let lg := resolveLogOf fs filePath imp.module im tc
      match resolveImportPath fs filePath imp.module im tc with
      | some rp =>
        if matchesTarget fs ntp isDir rp then
          (⟨filePath, imp.module, rp, imp.lineNumber⟩ :: acc.1, lg ++ acc.2)
        else (acc.1, lg ++ acc.2)
      | none => (acc.1, lg ++ acc.2)

/-- Per-candidate-file body of `findImporters` (lines 490-559), including
the per-file `try`/`catch`: skip the target (or files inside a directory
target), warn and skip missing files, warn and skip a file whose
processing throws `NotFound`, log via `console.error` and skip on any
other error. -/
def importEntries (fs : FS) (im : Option ImportMap) (tc : Option TsConfig)
    (ntp : String) (isDir : Bool) (filePath : String) :
    List ResolvedImport × List LogEntry :=
  if isDir ∧ strStartsWith (fs.canon filePath) ntp then ([], [])
  else if ¬ isDir ∧ fs.canon filePath = ntp then ([], [])
  else
    match fs.existsE filePath with
    | .error _ => ([], [⟨.error, "Error processing " ++ filePath⟩])
    | .ok false => ([], [⟨.warn, "Warning: Skipping non-existent file " ++ filePath⟩])
    | .ok true =>
      match parseImportsE fs filePath with
      | .error (.notFound m) =>
        ([], [⟨.warn, "Warning: Skipping file " ++ filePath ++ " - " ++ m⟩])
      | .error (.generic _) => ([], [⟨.error, "Error processing " ++ filePath⟩])
      | .ok imps => importsFold fs im tc ntp isDir filePath imps

/-- The candidate-file loop of `findImporters`, accumulating results and
log entries in input order. -/
def filesFold (fs : FS) (im : Option ImportMap) (tc : Option TsConfig)
    (ntp : String) (isDir : Bool) : List String → List ResolvedImport × List LogEntry
  | [] => ([], [])
  | f :: rest =>
    let h := importEntries fs im tc ntp isDir f
    let t := filesFold fs im tc ntp isDir rest
    (h.1 ++ t.1, h.2 ++ t.2)

/-- `findImporters(targetFilePath, files, rootPath)` (lines 423-563).
Returns the accumulated `ResolvedImport` list and the console log; a
missing target aborts the whole call with `NotFound`. -/
def findImportersE (fs : FS) (targetFilePath : String) (files : List String)
    (rootPath : String) : Except JsErr (List ResolvedImport × List LogEntry) :=
  let L1 := loadedImportMap fs rootPath
  let L2 := loadedTsConfig fs rootPath
  match normalizeTargetE fs targetFilePath with
  | .error e => .error e
  | .ok td =>
    let r := filesFold fs L1.1 L2.1 td.1 td.2 files
    .ok (r.1, L1.2 ++ L2.2 ++ r.2)

/-! ## findDirectoryImporters (src/resolver.ts lines 574-698) -/

/-- Target check of `findDirectoryImporters` (lines 599-612): the
resolved target must exist and be a directory; absence surfaces as
`NotFound`, a file target as a generic error. -/
def checkDirTargetE (fs : FS) (targetDirectoryPath : String) : Except JsErr String :=
  let ntp := resolvePosix fs.cwd [targetDirectoryPath]
  match fs.statIsDirE ntp with
  | .ok true => .ok ntp
  | .ok false => .error (.generic ("Target is not a directory: " ++ targetDirectoryPath))
  | .error (.notFound _) =>
    .error (.notFound ("Target directory not found: " ++ targetDirectoryPath))
  | .error (.generic m) => .error (.generic m)

/-- Per-import-statement loop of `findDirectoryImporters`
(lines 634-665): a matching resolution contributes a pair of the group
key — the referenced path relative to the target directory — and the
`Importer` record. -/
def dirImportsFold (fs : FS) (im : Option ImportMap) (tc : Option TsConfig)
    (ntp : String) (filePath : String) :
    List ImportStatement → List (String × Importer) × List LogEntry
  | [] => ([], [])
  | imp :: rest =>
    let acc := dirImportsFold fs im tc ntp filePath rest
    if imp.isDynamic then acc
    else
      let lg := resolveLogOf fs filePath imp.module im tc
      match resolveImportPath fs filePath imp.module im tc with
      | some rp =>
        if strStartsWith (fs.canon rp) ntp then
          ((relativePosix fs.cwd ntp rp, ⟨filePath, imp.module, imp.lineNumber⟩) :: acc.1,
            lg ++ acc.2)
        else (acc.1, lg ++ acc.2)
      | none => (acc.1, lg ++ acc.2)

/-- Per-candidate-file body of `findDirectoryImporters` (lines 618-672),
with the same skip and per-file error policy as `findImporters`. -/
def dirFileEntries (fs : FS) (im : Option ImportMap) (tc : Option TsConfig)
    (ntp : String) (filePath : String) : List (String × Importer) × List LogEntry :=
  if strStartsWith (fs.canon filePath) ntp then ([], [])
  else
    match fs.existsE filePath with
    | .error _ => ([], [⟨.error, "Error processing " ++ filePath⟩])
    | .ok false => ([], [⟨.warn, "Warning: Skipping non-existent file " ++ filePath⟩])
    | .ok true =>
      match parseImportsE fs filePath with
      | .error (.notFound m) =>
        ([], [⟨.warn, "Warning: Skipping file " ++ filePath ++ " - " ++ m⟩])
      | .error (.generic _) => ([], [⟨.error, "Error processing " ++ filePath⟩])
      | .ok imps => dirImportsFold fs im tc ntp filePath imps

/-- Candidate-file loop of `findDirectoryImporters`. -/
def dirFilesFold (fs : FS) (im : Option ImportMap) (tc : Option TsConfig)
    (ntp : String) : List String → List (String × Importer) × List LogEntry
  | [] => ([], [])
  | f :: rest =>
    let h := dirFileEntries fs im tc ntp f
    let t := dirFilesFold fs im tc ntp rest
    (h.1 ++ t.1, h.2 ++ t.2)

/-- Key list of the `importGroups` map in insertion order: first
occurrence of each key. -/
def dedupKeysAux (seen : List String) : List String → List String
  | [] => []
  | k :: rest => if k ∈ seen then dedupKeysAux seen rest else k :: dedupKeysAux (k :: seen) rest

/-- Insertion-ordered distinct keys of the collected entries. -/
def insertionKeys (entries : List (String × Importer)) : List String :=
  dedupKeysAux [] (entries.map (fun e => e.1))

/-- Content of one group of the `importGroups` map: all importers pushed
under the key, in traversal order. -/
def groupFor (entries : List (String × Importer)) (k : String) : List Importer :=
  entries.filterMap (fun e => if e.1 = k then some e.2 else none)

/-- The `importGroups` map converted to a list of `ImportGroup`
(lines 676-682): map iteration order is insertion order. -/
def groupsPre (entries : List (String × Importer)) : List ImportGroup :=
  (insertionKeys entries).map (fun k => ⟨k, groupFor entries k⟩)

/-- Three-way comparison on naturals. -/
def natCmp (a b : Nat) : Ordering :=
  if a < b then .lt else if b < a then .gt else .eq

/-- Lexicographic three-way comparison on character lists by code point. -/
def charListCmp : List Char → List Char → Ordering
  | [], [] => .eq
  | [], _ :: _ => .lt
  | _ :: _, [] => .gt
  | a :: as, b :: bs =>
    match natCmp a.toNat b.toNat with
    | .eq => charListCmp as bs
    | o => o

/-- Models `String.prototype.localeCompare` as used by the sort
comparators of `findDirectoryImporters` (lines 685 and 689).  The real
comparator is locale-sensitive; for the determinism and sortedness
properties proved here only that it is a total order on strings matters,
and it is modelled as code-point lexicographic comparison. -/
def localeCmp (a b : String) : Ordering := charListCmp a.data b.data

/-- Comparator relation of `groups.sort((a, b) =>
a.importedFile.localeCompare(b.importedFile))`: a sorted list satisfies
`comparator ≤ 0` between neighbours. -/
def groupLe (a b : ImportGroup) : Prop := localeCmp a.importedFile b.importedFile ≠ .gt

instance : DecidableRel groupLe := fun a b =>
  inferInstanceAs (Decidable (localeCmp a.importedFile b.importedFile ≠ .gt))

/-- Comparator relation of `group.importers.sort((a, b) =>
a.sourceFile.localeCompare(b.sourceFile))`. -/
def importerLe (a b : Importer) : Prop := localeCmp a.sourceFile b.sourceFile ≠ .gt

instance : DecidableRel importerLe := fun a b =>
  inferInstanceAs (Decidable (localeCmp a.sourceFile b.sourceFile ≠ .gt))

/-- Plain string order used for bookkeeping in the sorting proofs. -/
def strLe (a b : String) : Prop := localeCmp a b ≠ .gt

instance : DecidableRel strLe := fun a b =>
  inferInstanceAs (Decidable (localeCmp a b ≠ .gt))

/-- `Array.prototype.sort` is stable with a consistent comparator, which
stable insertion sort models exactly. -/
def sortGroups (gs : List ImportGroup) : List ImportGroup :=
  List.insertionSort groupLe gs

/-- The in-place importer sort applied to each group (lines 688-690). -/
def sortImporters (g : ImportGroup) : ImportGroup :=
  ⟨g.importedFile, List.insertionSort importerLe g.importers⟩

/-- `findDirectoryImporters(targetDirectoryPath, files, rootPath)`
(lines 574-698): collect matching (relative path, importer) pairs per
candidate file, group them in insertion order, sort groups by referenced
path and importers by source file, and assemble the result aggregate. -/
def findDirectoryImportersE (fs : FS) (targetDirectoryPath : String)
    (files : List String) (rootPath : String) :
    Except JsErr (DirectoryImporterResult × List LogEntry) :=
  let L1 := loadedImportMap fs rootPath
  let L2 := loadedTsConfig fs rootPath
  match checkDirTargetE fs targetDirectoryPath with
  | .error e => .error e
  | .ok ntp =>
    let r := dirFilesFold fs L1.1 L2.1 ntp files
    let gs := (sortGroups (groupsPre r.1)).map sortImporters
    .ok ({ target := targetDirectoryPath, root := rootPath,
           count := (gs.map (fun g => g.importers.length)).sum, groups := gs },
         L1.2 ++ L2.2 ++ r.2)

/-! ## Concrete fixtures used by witnesses and counterexamples -/

/-- Import-extraction oracle for the concrete scan fixtures. -/
def scanReads : String → Except JsErr (List ImportStatement) := fun p =>
  if p = "/r/a.ts" then .ok [⟨.es6, "./foo-bar.ts", false, 1⟩]
  else if p = "/r/foosib.ts" then .ok [⟨.es6, "./foo/in.ts", false, 2⟩]
  else if p = "/r/good.ts" then .ok [⟨.es6, "./t.ts", false, 1⟩]
  else if p = "/r/bad.ts" then .error (.generic "boom")
  else if p = "/r/vanish.ts" then .error (.notFound "gone")
  else if p = "/r/two.ts" then .ok [⟨.commonjs, "./foo/in.ts", false, 3⟩]
  else .ok []

/-- Snapshot with every path absent. -/
def fsAbsent : FS :=
  { cwd := "/w"
    st := fun _ => PathState.absent
    readImports := fun _ => .ok []
    loadImportMapR := fun _ => .ok none
    loadTsConfigR := fun _ => .ok none }

/-- Snapshot where every stat/existence probe throws. -/
def fsErrAll : FS :=
  { cwd := "/w"
    st := fun _ => PathState.err
    readImports := fun _ => .ok []
    loadImportMapR := fun _ => .ok none
    loadTsConfigR := fun _ => .ok none }

/-- Snapshot with directory `/r/d` containing `/r/d/index.ts`. -/
def fsDirIndex : FS :=
  { cwd := "/w"
    st := fun p => if p = "/r/d" then .dir else if p = "/r/d/index.ts" then .file else .absent
    readImports := fun _ => .ok []
    loadImportMapR := fun _ => .ok none
    loadTsConfigR := fun _ => .ok none }

/-- Snapshot for file-target scans: `/r/good.ts` imports `./t.ts`;
`/r/bad.ts` exists but its content read throws a generic error;
`/r/vanish.ts` exists but its content read throws NotFound (the file
vanishing mid-scan). -/
def fsScan : FS :=
  { cwd := "/w"
    st := fun p =>
      if p = "/r/good.ts" then .file else if p = "/r/bad.ts" then .file
      else if p = "/r/vanish.ts" then .file
      else if p = "/r/t.ts" then .file else .absent
    readImports := scanReads
    loadImportMapR := fun _ => .ok none
    loadTsConfigR := fun _ => .ok none }

/-- Snapshot for directory-target scans: target directory `/r/foo`
contains `/r/foo/in.ts`; `/r/foo-bar.ts` and `/r/foosib.ts` are sibling
paths whose strings begin with `/r/foo`. -/
def fsBoundary : FS :=
  { cwd := "/w"
    st := fun p =>
      if p = "/r" then .dir else if p = "/r/foo" then .dir
      else if p = "/r/a.ts" then .file else if p = "/r/foo-bar.ts" then .file
      else if p = "/r/foosib.ts" then .file else if p = "/r/foo/in.ts" then .file
      else if p = "/r/two.ts" then .file else .absent
    readImports := scanReads
    loadImportMapR := fun _ => .ok none
    loadTsConfigR := fun _ => .ok none }

/-- Tsconfig with one wildcard path pattern (the C1 fixture). -/
def tsWildcard : TsConfig := ⟨some ⟨some ".", some [("@app/*", ["./app/*"])]⟩⟩

/-- Import map whose key "ab" is mapped to the empty string while the
shorter key "a" precedes it in declaration order (the C4 fixture). -/
def imEmptyRepl : ImportMap := ⟨some [("a", "./x.ts"), ("ab", "")]⟩

/-- Concrete directory-scan aggregate used by the C9 witness: two groups
with one importer each, in sorted order. -/
def boundaryResult : DirectoryImporterResult :=
  DirectoryImporterResult.mk "/r/foo" "/r" 2
    [⟨"../foo-bar.ts", [⟨"/r/a.ts", "./foo-bar.ts", 1⟩]⟩,
     ⟨"in.ts", [⟨"/r/two.ts", "./foo/in.ts", 3⟩]⟩]


/-! ## Helper lemmas -/

/-- The extension-probe loop finds nothing when every probed variant is
absent. -/
theorem extLoopE_none (fs : FS) (base : String) (l : List String)
    (h : ∀ ext ∈ l, fs.stA (base ++ ext) = .absent) : extLoopE fs base l = .ok none := by
  induction l with
  | nil => rfl
  | cons e rest ih =>
    have he : fs.stA (base ++ e) = .absent := h e (by simp)
    simp only [extLoopE, FS.existsE, he]
    exact ih (fun x hx => h x (by simp [hx]))

/-- The index probe yields nothing unless the resolved path is an
existing directory. -/
theorem indexProbe_none (fs : FS) (resolved : String) (h : fs.stA resolved ≠ .dir) :
    indexProbe fs resolved = none := by
  unfold indexProbe FS.statIsDirE
  cases hs : fs.stA resolved with
  | file => rfl
  | dir => exact absurd hs h
  | absent => rfl
  | err => rfl

/-- Pieces produced by `splitSlashAux` never contain the separator. -/
theorem splitSlashAux_no_slash (s : List Char) :
    ∀ acc x, '/' ∉ acc → x ∈ splitSlashAux s acc → '/' ∉ x := by
  induction s with
  | nil =>
    intro acc x hacc hx
    simp only [splitSlashAux, List.mem_singleton] at hx
    subst hx
    simpa using hacc
  | cons c rest ih =>
    intro acc x hacc hx
    by_cases hc : c = '/'
    · rw [hc] at hx
      simp [splitSlashAux] at hx
      rcases hx with h1 | h1
      · subst h1; simpa using hacc
      · exact ih [] x (by simp) h1
    · simp only [splitSlashAux, if_neg hc] at hx
      refine ih (c :: acc) x ?_ hx
      intro hmem
      rcases List.mem_cons.mp hmem with h1 | h1
      · exact hc h1.symm
      · exact hacc h1

/-- Pieces of `splitSlash` never contain the separator. -/
theorem splitSlash_no_slash (s : List Char) (x : List Char) (hx : x ∈ splitSlash s) :
    '/' ∉ x :=
  splitSlashAux_no_slash s [] x (by simp) hx

/-- Splitting a separator-free run followed by a separator peels one
component. -/
theorem splitSlashAux_append_sep (t : List Char) (c : List Char) (hc : '/' ∉ c) :
    ∀ acc, splitSlashAux (c ++ '/' :: t) acc = (acc.reverse ++ c) :: splitSlashAux t [] := by
  induction c with
  | nil => intro acc; simp [splitSlashAux]
  | cons a as ih =>
    intro acc
    have ha : ¬ a = '/' := fun h => hc (by simp [h])
    have has : '/' ∉ as := fun h => hc (by simp [h])
    show splitSlashAux (a :: (as ++ '/' :: t)) acc = _
    rw [show splitSlashAux (a :: (as ++ '/' :: t)) acc
        = splitSlashAux (as ++ '/' :: t) (a :: acc) by simp [splitSlashAux, ha]]
    rw [ih has (a :: acc)]
    simp

/-- Splitting a separator-free list yields a single component. -/
theorem splitSlashAux_no_sep (c : List Char) (hc : '/' ∉ c) :
    ∀ acc, splitSlashAux c acc = [acc.reverse ++ c] := by
  induction c with
  | nil => intro acc; simp [splitSlashAux]
  | cons a as ih =>
    intro acc
    have ha : ¬ a = '/' := fun h => hc (by simp [h])
    have has : '/' ∉ as := fun h => hc (by simp [h])
    show splitSlashAux (a :: as) acc = _
    rw [show splitSlashAux (a :: as) acc = splitSlashAux as (a :: acc) by
      simp [splitSlashAux, ha]]
    rw [ih has (a :: acc)]
    simp

/-- Splitting `intercalate "/" comps ++ "/"` recovers the components plus
one trailing empty piece. -/
theorem splitSlash_intercalate_sep (comps : List (List Char))
    (h : ∀ c ∈ comps, '/' ∉ c) (hne : comps ≠ []) :
    splitSlash (List.intercalate ['/'] comps ++ ['/']) = comps ++ [[]] := by
  induction comps with
  | nil => exact absurd rfl hne
  | cons c rest ih =>
    cases rest with
    | nil =>
      simp only [List.intercalate, List.intersperse_singleton, List.flatten,
        List.append_nil, splitSlash]
      rw [splitSlashAux_append_sep [] c (h c (by simp)) []]
      simp [splitSlashAux]
    | cons d ds =>
      have hint : List.intercalate ['/'] (c :: d :: ds)
          = c ++ '/' :: List.intercalate ['/'] (d :: ds) := by
        simp [List.intercalate, List.intersperse_cons_cons]
      rw [hint]
      simp only [splitSlash, List.append_assoc, List.cons_append]
      rw [splitSlashAux_append_sep _ c (h c (by simp)) []]
      simp only [List.reverse_nil, List.nil_append, List.cons.injEq, true_and]
      have := ih (fun x hx => h x (by simp [hx])) (by simp)
      simpa [splitSlash] using this

/-- Components that pass all guards are pushed unchanged by the
normalization fold. -/
theorem foldl_normStep_push (comps : List (List Char))
    (h : ∀ c ∈ comps, c ≠ [] ∧ c ≠ ['.'] ∧ c ≠ ['.', '.']) :
    ∀ acc, comps.foldl (normStep false) acc = comps.reverse ++ acc := by
  induction comps with
  | nil => intro acc; simp
  | cons c rest ih =>
    intro acc
    obtain ⟨h1, h2, h3⟩ := h c (by simp)
    have hstep : normStep false acc c = c :: acc := by
      unfold normStep
      rw [if_neg (by simp [h1, h2]), if_neg h3]
    simp only [List.foldl_cons, hstep, ih (fun x hx => h x (by simp [hx]))]
    simp

/-- Normalizing an already-normalized component list bracketed by the
empty pieces produced by leading and trailing separators is the identity. -/
theorem normComps_id (comps : List (List Char))
    (h : ∀ c ∈ comps, c ≠ [] ∧ c ≠ ['.'] ∧ c ≠ ['.', '.']) :
    normComps false (([] : List Char) :: comps ++ [[]]) = comps := by
  unfold normComps
  have h0 : normStep false [] [] = [] := by simp [normStep]
  simp only [List.foldl_cons, h0, List.foldl_append, foldl_normStep_push comps h [],
    List.foldl_cons, List.foldl_nil]
  have hlast : normStep false comps.reverse [] = comps.reverse := by
    simp [normStep]
  simp [hlast]

/-- One normalization step only keeps accumulator elements or pushes a
guard-passing component. -/
theorem normStep_subset (acc : List (List Char)) (c : List Char)
    (x : List Char) (hx : x ∈ normStep false acc c) :
    x ∈ acc ∨ (x = c ∧ c ≠ [] ∧ c ≠ ['.'] ∧ c ≠ ['.', '.']) := by
  unfold normStep at hx
  by_cases h1 : c = [] ∨ c = ['.']
  · rw [if_pos h1] at hx; exact Or.inl hx
  · rw [if_neg h1] at hx
    by_cases h2 : c = ['.', '.']
    · rw [if_pos h2] at hx
      by_cases h4 : acc = []
      · rw [if_pos h4] at hx; simp at hx
      · rw [if_neg h4] at hx
        by_cases h5 : acc.head? = some ['.', '.']
        · rw [if_pos h5, if_neg (by simp)] at hx
          exact Or.inl hx
        · rw [if_neg h5] at hx
          exact Or.inl (List.mem_of_mem_tail hx)
    · rw [if_neg h2] at hx
      rcases List.mem_cons.mp hx with h | h
      · push_neg at h1
        exact Or.inr ⟨h, h1.1, h1.2, h2⟩
      · exact Or.inl h

/-- Elements surviving the normalization fold either were in the
accumulator or are guard-passing input components. -/
theorem mem_foldl_normStep (l : List (List Char)) :
    ∀ acc x, x ∈ l.foldl (normStep false) acc →
      x ∈ acc ∨ (x ∈ l ∧ x ≠ [] ∧ x ≠ ['.'] ∧ x ≠ ['.', '.']) := by
  induction l with
  | nil => intro acc x hx; exact Or.inl (by simpa using hx)
  | cons c rest ih =>
    intro acc x hx
    simp only [List.foldl_cons] at hx
    rcases ih (normStep false acc c) x hx with h | h
    · rcases normStep_subset acc c x h with h | h
      · exact Or.inl h
      · rcases h with ⟨hxc, hc1, hc2, hc3⟩
        subst hxc
        exact Or.inr ⟨by simp, hc1, hc2, hc3⟩
    · exact Or.inr ⟨List.mem_cons_of_mem c h.1, h.2⟩

/-- Every component of a normalized separator-free split is a plain
guard-passing separator-free piece. -/
theorem mem_normComps_good (s : List Char) (x : List Char)
    (hx : x ∈ normComps false (splitSlash s)) :
    x ≠ [] ∧ x ≠ ['.'] ∧ x ≠ ['.', '.'] ∧ '/' ∉ x := by
  unfold normComps at hx
  rw [List.mem_reverse] at hx
  rcases mem_foldl_normStep (splitSlash s) [] x hx with h | h
  · simp at h
  · exact ⟨h.2.1, h.2.2.1, h.2.2.2, splitSlash_no_slash s x h.1⟩

/-- Joined non-empty components are non-empty. -/
theorem joinComps_ne_empty (c : List Char) (cs : List (List Char)) (hc : c ≠ []) :
    joinComps (c :: cs) ≠ "" := by
  intro h
  have hdata : List.intercalate ['/'] (c :: cs) = [] := by
    have := congrArg String.data h
    simpa [joinComps] using this
  cases cs with
  | nil => simp [List.intercalate] at hdata; exact hc hdata
  | cons d ds =>
    rw [show List.intercalate ['/'] (c :: d :: ds)
        = c ++ '/' :: List.intercalate ['/'] (d :: ds) by
      simp [List.intercalate, List.intersperse_cons_cons]] at hdata
    simp at hdata

/-- The final stage of an absolute `resolve`: the root-or-rooted-path
branch collapses to a single expression. -/
theorem resolveFinal_form (s : List Char) :
    (if joinComps (normComps false (splitSlash s)) = "" then "/"
      else "/" ++ joinComps (normComps false (splitSlash s)))
      = "/" ++ joinComps (normComps false (splitSlash s)) := by
  by_cases h : joinComps (normComps false (splitSlash s)) = ""
  · rw [if_pos h, h]; rfl
  · rw [if_neg h]

/-- Resolving against an absolute working directory always yields a
rooted path over guard-passing components. -/
theorem resolvePosix_abs_form (cwd p : String) (h : isAbsStr cwd = true) :
    ∃ s : List Char,
      resolvePosix cwd [p] = "/" ++ joinComps (normComps false (splitSlash s)) := by
  have hcwdne : ¬ cwd = "" := by
    intro hc
    rw [hc] at h
    simp [isAbsStr, strStartsWith, List.isPrefixOf] at h
  by_cases hp : p = ""
  · subst hp
    have hr : resolveLoop "" ([""] : List String).reverse = ("", false) := rfl
    refine ⟨(cwd ++ "/" ++ "").data, ?_⟩
    simp only [resolvePosix, hr, Bool.false_eq_true, if_false, if_neg hcwdne, h,
      Bool.not_true, if_true]
    exact resolveFinal_form (cwd ++ "/" ++ "").data
  · by_cases habs : isAbsStr p = true
    · have hr : resolveLoop "" ([p] : List String).reverse = (p ++ "/" ++ "", true) := by
        simp [resolveLoop, hp, habs]
      refine ⟨(p ++ "/" ++ "").data, ?_⟩
      simp only [resolvePosix, hr, if_true, Bool.not_true]
      exact resolveFinal_form (p ++ "/" ++ "").data
    · have habs2 : isAbsStr p = false := Bool.not_eq_true _ ▸ Bool.of_not_eq_true habs
      have hr : resolveLoop "" ([p] : List String).reverse = (p ++ "/" ++ "", false) := by
        simp [resolveLoop, hp, habs2]
      refine ⟨(cwd ++ "/" ++ (p ++ "/" ++ "")).data, ?_⟩
      simp only [resolvePosix, hr, Bool.false_eq_true, if_false, if_neg hcwdne, h,
        Bool.not_true, if_true]
      exact resolveFinal_form (cwd ++ "/" ++ (p ++ "/" ++ "")).data

/-- Resolving a rooted normalized path is the identity: canonicalization
is idempotent when the working directory is absolute. -/
theorem resolvePosix_idem (cwd p : String) (h : isAbsStr cwd = true) :
    resolvePosix cwd [resolvePosix cwd [p]] = resolvePosix cwd [p] := by
  obtain ⟨s, hs⟩ := resolvePosix_abs_form cwd p h
  rw [hs]
  cases hcomps : normComps false (splitSlash s) with
  | nil =>
    show resolvePosix cwd ["/" ++ joinComps []] = _
    have : ("/" ++ joinComps [] : String) = "/" := by simp [joinComps, List.intercalate]
    rw [this]
    rfl
  | cons c cs =>
    have hgood : ∀ x ∈ c :: cs, x ≠ [] ∧ x ≠ ['.'] ∧ x ≠ ['.', '.'] ∧ '/' ∉ x := by
      intro x hx
      exact mem_normComps_good s x (hcomps ▸ hx)
    have hq : ("/" ++ joinComps (c :: cs)).data = '/' :: List.intercalate ['/'] (c :: cs) := by
      simp [String.data_append, joinComps]
    have hqne : ("/" ++ joinComps (c :: cs) : String) ≠ "" := by
      intro hg
      have := congrArg String.data hg
      rw [hq] at this
      simp at this
    have hqabs : isAbsStr ("/" ++ joinComps (c :: cs)) = true := by
      simp only [isAbsStr, strStartsWith, hq]
      simp [List.isPrefixOf]
    unfold resolvePosix
    simp only [List.reverse_singleton, resolveLoop, if_neg hqne, hqabs, if_true,
      eq_self_iff_true, Bool.not_true]
    have hsplit : splitSlash (("/" ++ joinComps (c :: cs) ++ "/").data)
        = [] :: ((c :: cs) ++ [[]]) := by
      have hdata : ("/" ++ joinComps (c :: cs) ++ "/").data
          = '/' :: (List.intercalate ['/'] (c :: cs) ++ ['/']) := by
        simp [String.data_append, joinComps]
      rw [hdata]
      show splitSlashAux ('/' :: (List.intercalate ['/'] (c :: cs) ++ ['/'])) [] = _
      rw [show splitSlashAux ('/' :: (List.intercalate ['/'] (c :: cs) ++ ['/'])) []
          = [] :: splitSlashAux (List.intercalate ['/'] (c :: cs) ++ ['/']) [] by
        simp [splitSlashAux]]
      have := splitSlash_intercalate_sep (c :: cs)
        (fun x hx => (hgood x hx).2.2.2) (by simp)
      simpa [splitSlash] using this
    have hquote : ("/" ++ joinComps (c :: cs) ++ "/" ++ "").data
        = ("/" ++ joinComps (c :: cs) ++ "/").data := by
      simp
    rw [hquote, hsplit]
    have hnorm : normComps false (([] : List Char) :: ((c :: cs) ++ [[]])) = c :: cs :=
      normComps_id (c :: cs) (fun x hx =>
        ⟨(hgood x hx).1, (hgood x hx).2.1, (hgood x hx).2.2.1⟩)
    simp only [Bool.not_true, hnorm]
    rw [if_neg (joinComps_ne_empty c cs (hgood c (by simp)).1)]

/-- Canonicalization of paths is idempotent for an absolute working
directory. -/
theorem canon_idem (fs : FS) (p : String) (h : isAbsStr fs.cwd = true) :
    fs.canon (fs.canon p) = fs.canon p :=
  resolvePosix_idem fs.cwd p h

/-- String prefixing is reflexive. -/
theorem strStartsWith_self (s : String) : strStartsWith s s = true := by
  simp [strStartsWith]

/-- Monadic bind on a success, as a rewrite rule. -/
theorem exceptBind_ok {α β ε : Type} (a : α) (f : α → Except ε β) :
    (Except.ok a >>= f) = f a := rfl

/-- Monadic bind on an error, as a rewrite rule. -/
theorem exceptBind_error {α β ε : Type} (e : ε) (f : α → Except ε β) :
    ((Except.error e : Except ε α) >>= f) = Except.error e := rfl

/-- Results of the candidate-file loop come from some input file. -/
theorem mem_filesFold (fs : FS) (im : Option ImportMap) (tc : Option TsConfig)
    (ntp : String) (isDir : Bool) (files : List String) (r : ResolvedImport)
    (h : r ∈ (filesFold fs im tc ntp isDir files).1) :
    ∃ f ∈ files, r ∈ (importEntries fs im tc ntp isDir f).1 := by
  induction files with
  | nil => simp [filesFold] at h
  | cons f rest ih =>
    simp only [filesFold, List.mem_append] at h
    rcases h with h | h
    · exact ⟨f, by simp, h⟩
    · obtain ⟨g, hg, hr⟩ := ih h
      exact ⟨g, by simp [hg], hr⟩

/-- Every record produced while scanning one file carries that file as
its source. -/
theorem importsFold_sourceFile (fs : FS) (im : Option ImportMap) (tc : Option TsConfig)
    (ntp : String) (isDir : Bool) (f : String) (imps : List ImportStatement)
    (r : ResolvedImport) (h : r ∈ (importsFold fs im tc ntp isDir f imps).1) :
    r.sourceFile = f := by
  induction imps with
  | nil => simp [importsFold] at h
  | cons imp rest ih =>
    unfold importsFold at h
    by_cases hdyn : imp.isDynamic = true
    · rw [if_pos hdyn] at h
      exact ih h
    · rw [if_neg hdyn] at h
      cases hres : resolveImportPath fs f imp.module im tc with
      | none =>
        rw [hres] at h
        exact ih h
      | some rp =>
        rw [hres] at h
        simp only [List.mem_cons] at h
        by_cases hm : matchesTarget fs ntp isDir rp = true
        · simp only [if_pos hm, List.mem_cons] at h
          rcases h with h | h
          · rw [h]
          · exact ih h
        · simp only [if_neg hm] at h
          exact ih h

/-- A file that contributes a record was not skipped: it is not the
target (or inside a directory target) and its existence probe succeeded. -/
theorem importEntries_not_skipped (fs : FS) (im : Option ImportMap) (tc : Option TsConfig)
    (ntp : String) (isDir : Bool) (f : String) (r : ResolvedImport)
    (h : r ∈ (importEntries fs im tc ntp isDir f).1) :
    r.sourceFile = f ∧
    ¬ (isDir = true ∧ strStartsWith (fs.canon f) ntp = true) ∧
    ¬ (isDir = false ∧ fs.canon f = ntp) ∧
    fs.existsE f = .ok true := by
  unfold importEntries at h
  by_cases h1 : isDir = true ∧ strStartsWith (fs.canon f) ntp = true
  · rw [if_pos (by exact_mod_cast h1)] at h
    simp at h
  · rw [if_neg (by exact_mod_cast h1)] at h
    by_cases h2 : ¬ isDir = true ∧ fs.canon f = ntp
    · rw [if_pos (by exact_mod_cast h2)] at h
      simp at h
    · rw [if_neg (by exact_mod_cast h2)] at h
      cases hex : fs.existsE f with
      | error e => rw [hex] at h; simp at h
      | ok b =>
        cases b with
        | false => rw [hex] at h; simp at h
        | true =>
          rw [hex] at h
          cases hpi : parseImportsE fs f with
          | error e =>
            rw [hpi] at h
            cases e <;> simp at h
          | ok imps =>
            rw [hpi] at h
            refine ⟨importsFold_sourceFile fs im tc ntp isDir f imps r h, h1, ?_, rfl⟩
            intro hc
            exact h2 ⟨by simp [hc.1], hc.2⟩

/-- What target normalization can return: either the canonical target
path itself, or — in extension-probing mode — a file-mode answer with the
canonical target absent. -/
theorem normalizeTargetE_cases (fs : FS) (target ntp : String) (isDir : Bool)
    (hcwd : isAbsStr fs.cwd = true)
    (h : normalizeTargetE fs target = .ok (ntp, isDir)) :
    ntp = fs.canon target ∨ (isDir = false ∧ fs.st (fs.canon target) = .absent) := by
  have hidem : fs.canon (fs.canon target) = fs.canon target := canon_idem fs target hcwd
  unfold normalizeTargetE FS.statIsDirE FS.existsE at h
  cases hst : fs.stA (resolvePosix fs.cwd [target]) with
  | file =>
    simp only [hst, exceptBind_ok, Bool.false_eq_true, if_false, eq_self_iff_true,
      if_true] at h
    simp only [pure, Except.pure] at h
    injection h with h
    injection h with h1 h2
    exact Or.inl h1.symm
  | dir =>
    simp only [hst, exceptBind_ok, Bool.false_eq_true, if_false, eq_self_iff_true,
      if_true] at h
    simp only [pure, Except.pure] at h
    injection h with h
    injection h with h1 h2
    exact Or.inl h1.symm
  | absent =>
    have habs : fs.st (fs.canon target) = .absent := by
      have hx : fs.stA (fs.canon target) = .absent := hst
      unfold FS.stA at hx
      rwa [hidem] at hx
    simp only [hst, exceptBind_ok, Bool.false_eq_true, if_false] at h
    cases hpl : extLoopE fs (extBase (resolvePosix fs.cwd [target])) extensions with
    | error e =>
      rw [hpl] at h
      simp only [exceptBind_error] at h
      simp at h
    | ok o =>
      rw [hpl] at h
      simp only [exceptBind_ok] at h
      cases o with
      | none => simp at h
      | some w =>
        simp only [pure, Except.pure] at h
        injection h with h
        injection h with h1 h2
        exact Or.inr ⟨h2.symm, habs⟩
  | err =>
    simp only [hst, exceptBind_ok, Bool.false_eq_true, if_false, exceptBind_error] at h
    simp at h

/-- C3 (confirmed): `findImporters` never reports the target itself as an
importer — every returned record has a source file different from the
target, both literally and after canonicalization.  A candidate equal to
the (possibly extension-probed) normalized target, or inside a directory
target, is skipped before extraction; a candidate spelling the original
missing target is skipped by the existence check. -/
theorem c3_never_reports_target (fs : FS) (target rootP : String) (files : List String)
    (res : List ResolvedImport) (lg : List LogEntry)
    (hcwd : isAbsStr fs.cwd = true)
    (hok : findImportersE fs target files rootP = .ok (res, lg)) :
    ∀ r ∈ res, r.sourceFile ≠ target ∧ fs.canon r.sourceFile ≠ fs.canon target := by
  unfold findImportersE at hok
  cases hnt : normalizeTargetE fs target with
  | error e => rw [hnt] at hok; exact absurd hok (by simp)
  | ok td =>
    rw [hnt] at hok
    injection hok with hok
    have hres : (filesFold fs (loadedImportMap fs rootP).1 (loadedTsConfig fs rootP).1
        td.1 td.2 files).1 = res := congrArg Prod.fst hok
    intro r hr
    rw [← hres] at hr
    obtain ⟨f, _, hrf⟩ := mem_filesFold fs _ _ td.1 td.2 files r hr
    obtain ⟨hsf, hskip1, hskip2, hex⟩ := importEntries_not_skipped fs _ _ td.1 td.2 f r hrf
    have hcanon_ne : fs.canon r.sourceFile ≠ fs.canon target := by
      rw [hsf]
      rcases normalizeTargetE_cases fs target td.1 td.2 hcwd hnt with hcase | hcase
      · cases htd2 : td.2 with
        | true =>
          intro hc
          exact hskip1 ⟨htd2, by rw [hc, ← hcase]; exact strStartsWith_self td.1⟩
        | false =>
          intro hc
          exact hskip2 ⟨htd2, by rw [hc, ← hcase]⟩
      · intro hc
        have : fs.existsE f = .ok false := by
          unfold FS.existsE FS.stA
          rw [hc, hcase.2]
        rw [this] at hex
        exact absurd hex (by simp)
    refine ⟨?_, hcanon_ne⟩
    intro hc
    exact hcanon_ne (by rw [hc])

/-- C3 (witness): the file-target scan fixture, whose single result names
`/r/good.ts`, not the target `/r/t.ts`. -/
theorem c3_never_reports_target_witness :
    (⟨"/r/good.ts", "./t.ts", "/r/t.ts", 1⟩ : ResolvedImport).sourceFile ≠ "/r/t.ts" ∧
    fsScan.canon "/r/good.ts" ≠ fsScan.canon "/r/t.ts" :=
  c3_never_reports_target fsScan "/r/t.ts" "/r" ["/r/good.ts", "/r/bad.ts"]
    [⟨"/r/good.ts", "./t.ts", "/r/t.ts", 1⟩]
    [⟨.error, "Error processing " ++ "/r/bad.ts"⟩]
    rfl rfl ⟨"/r/good.ts", "./t.ts", "/r/t.ts", 1⟩ (by simp)

/-! ## Comparator theory for the sort relations -/

/-- The natural comparison is `eq` exactly on equal numbers. -/
theorem natCmp_eq_iff (a b : Nat) : natCmp a b = .eq ↔ a = b := by
  unfold natCmp
  split_ifs with h1 h2
  · simp; omega
  · simp; omega
  · simp; omega

/-- The natural comparison is `lt` exactly when `a < b`. -/
theorem natCmp_lt_iff (a b : Nat) : natCmp a b = .lt ↔ a < b := by
  unfold natCmp
  split_ifs with h1 h2
  · simp; omega
  · simp; omega
  · simp; omega

/-- The natural comparison is never `gt` exactly when `a ≤ b`. -/
theorem natCmp_ne_gt_iff (a b : Nat) : natCmp a b ≠ .gt ↔ a ≤ b := by
  unfold natCmp
  split_ifs with h1 h2
  · simp; omega
  · simp; omega
  · simp; omega

/-- Swapping the arguments of the natural comparison swaps the outcome. -/
theorem natCmp_swap (a b : Nat) : natCmp b a = (natCmp a b).swap := by
  unfold natCmp
  split_ifs <;> first | rfl | omega

/-- The character-list comparison is reflexively `eq`. -/
theorem charListCmp_self (l : List Char) : charListCmp l l = .eq := by
  induction l with
  | nil => rfl
  | cons c rest ih =>
    unfold charListCmp
    rw [(natCmp_eq_iff c.toNat c.toNat).mpr rfl, ih]

/-- The character-list comparison is `eq` only on equal lists. -/
theorem charListCmp_eq_iff (a b : List Char) : charListCmp a b = .eq ↔ a = b := by
  induction a generalizing b with
  | nil => cases b <;> simp [charListCmp]
  | cons x xs ih =>
    cases b with
    | nil => simp [charListCmp]
    | cons y ys =>
      unfold charListCmp
      cases hn : natCmp x.toNat y.toNat with
      | eq =>
        have hxy : x = y := by
          have hnat := (natCmp_eq_iff x.toNat y.toNat).mp hn
          exact Char.ext (UInt32.ext hnat)
        simp [hxy, ih]
      | lt =>
        have hxy : x ≠ y := by
          intro hc
          rw [hc, (natCmp_eq_iff y.toNat y.toNat).mpr rfl] at hn
          exact Ordering.noConfusion hn
        simp [hxy]
      | gt =>
        have hxy : x ≠ y := by
          intro hc
          rw [hc, (natCmp_eq_iff y.toNat y.toNat).mpr rfl] at hn
          exact Ordering.noConfusion hn
        simp [hxy]

/-- Swapping the arguments of the character-list comparison swaps the
outcome. -/
theorem charListCmp_swap (a b : List Char) : charListCmp b a = (charListCmp a b).swap := by
  induction a generalizing b with
  | nil => cases b <;> rfl
  | cons x xs ih =>
    cases b with
    | nil => rfl
    | cons y ys =>
      unfold charListCmp
      rw [natCmp_swap x.toNat y.toNat]
      cases hn : natCmp x.toNat y.toNat with
      | eq => simpa [Ordering.swap] using ih ys
      | lt => simp [Ordering.swap]
      | gt => simp [Ordering.swap]

/-- Totality of the character-list order. -/
theorem charListCmp_total (a b : List Char) :
    charListCmp a b ≠ .gt ∨ charListCmp b a ≠ .gt := by
  rw [charListCmp_swap a b]
  cases charListCmp a b <;> simp [Ordering.swap]

/-- Transitivity of the character-list order. -/
theorem charListCmp_trans (a b c : List Char)
    (hab : charListCmp a b ≠ .gt) (hbc : charListCmp b c ≠ .gt) :
    charListCmp a c ≠ .gt := by
  induction a generalizing b c with
  | nil => cases c <;> simp [charListCmp]
  | cons x xs ih =>
    cases b with
    | nil => simp [charListCmp] at hab
    | cons y ys =>
      cases c with
      | nil => simp [charListCmp] at hbc
      | cons z zs =>
        unfold charListCmp at hab hbc ⊢
        cases hxy : natCmp x.toNat y.toNat with
        | gt => rw [hxy] at hab; simp at hab
        | lt =>
          have hx : x.toNat < y.toNat := (natCmp_lt_iff _ _).mp hxy
          cases hyz : natCmp y.toNat z.toNat with
          | gt => rw [hyz] at hbc; simp at hbc
          | lt =>
            have hy : y.toNat < z.toNat := (natCmp_lt_iff _ _).mp hyz
            rw [(natCmp_lt_iff x.toNat z.toNat).mpr (by omega)]
            simp
          | eq =>
            have hy : y.toNat = z.toNat := (natCmp_eq_iff _ _).mp hyz
            rw [(natCmp_lt_iff x.toNat z.toNat).mpr (by omega)]
            simp
        | eq =>
          have hx : x.toNat = y.toNat := (natCmp_eq_iff _ _).mp hxy
          rw [hxy] at hab
          cases hyz : natCmp y.toNat z.toNat with
          | gt => rw [hyz] at hbc; simp at hbc
          | lt =>
            have hy : y.toNat < z.toNat := (natCmp_lt_iff _ _).mp hyz
            rw [(natCmp_lt_iff x.toNat z.toNat).mpr (by omega)]
            simp
          | eq =>
            have hy : y.toNat = z.toNat := (natCmp_eq_iff _ _).mp hyz
            rw [hyz] at hbc
            rw [(natCmp_eq_iff x.toNat z.toNat).mpr (by omega)]
            exact ih ys zs hab hbc

/-- Antisymmetry of the string order. -/
theorem strLe_antisymm (a b : String) (hab : strLe a b) (hba : strLe b a) : a = b := by
  unfold strLe localeCmp at hab hba
  rw [charListCmp_swap a.data b.data] at hba
  cases ho : charListCmp a.data b.data with
  | eq => exact String.ext ((charListCmp_eq_iff _ _).mp ho)
  | lt =>
    rw [ho] at hba
    simp [Ordering.swap] at hba
  | gt => exact absurd ho hab

instance : IsTotal String strLe :=
  ⟨fun a b => charListCmp_total a.data b.data⟩

instance : IsTrans String strLe :=
  ⟨fun a b c => charListCmp_trans a.data b.data c.data⟩

instance : IsAntisymm String strLe :=
  ⟨strLe_antisymm⟩

instance : IsTotal Importer importerLe :=
  ⟨fun a b => charListCmp_total a.sourceFile.data b.sourceFile.data⟩

instance : IsTrans Importer importerLe :=
  ⟨fun a b c => charListCmp_trans a.sourceFile.data b.sourceFile.data c.sourceFile.data⟩

instance : IsTotal ImportGroup groupLe :=
  ⟨fun a b => charListCmp_total a.importedFile.data b.importedFile.data⟩

instance : IsTrans ImportGroup groupLe :=
  ⟨fun a b c => charListCmp_trans a.importedFile.data b.importedFile.data c.importedFile.data⟩

/-! ## Stable-sort structure lemmas -/

/-- Inserting an element that belongs exactly between two runs lands it
there. -/
theorem orderedInsert_middle {α : Type} (r : α → α → Prop) [DecidableRel r]
    (b : α) (A C : List α)
    (hA : ∀ y ∈ A, ¬ r b y) (hC : ∀ y ∈ C, r b y) :
    List.orderedInsert r b (A ++ C) = A ++ b :: C := by
  induction A with
  | nil =>
    cases C with
    | nil => rfl
    | cons c cs =>
      simp only [List.nil_append, List.orderedInsert]
      rw [if_pos (hC c (by simp))]
  | cons a A2 ih =>
    simp only [List.cons_append, List.orderedInsert, List.append_eq]
    rw [if_neg (hA a (by simp))]
    rw [ih (fun y hy => hA y (by simp [hy]))]

/-- Inserting a run of mutually tied elements between two runs keeps the
run intact and in order. -/
theorem foldr_orderedInsert_block {α : Type} (r : α → α → Prop) [DecidableRel r]
    (bs A C : List α)
    (hA : ∀ b ∈ bs, ∀ y ∈ A, ¬ r b y)
    (hC : ∀ b ∈ bs, ∀ y ∈ C, r b y)
    (hbs : ∀ b ∈ bs, ∀ b2 ∈ bs, r b b2) :
    bs.foldr (List.orderedInsert r) (A ++ C) = A ++ bs ++ C := by
  induction bs with
  | nil => simp
  | cons b bs2 ih =>
    simp only [List.foldr_cons]
    rw [ih (fun x hx => hA x (by simp [hx])) (fun x hx => hC x (by simp [hx]))
      (fun x hx y hy => hbs x (by simp [hx]) y (by simp [hy]))]
    rw [show (A ++ bs2 ++ C : List α) = A ++ (bs2 ++ C) by simp]
    rw [orderedInsert_middle r b A (bs2 ++ C) (hA b (by simp))]
    · simp
    · intro y hy
      rcases List.mem_append.mp hy with h | h
      · exact hbs b (by simp) y (by simp [h])
      · exact hC b (by simp) y h

/-- Insertion sort of an appended list folds the front over the sorted
tail. -/
theorem insertionSort_append_foldr {α : Type} (r : α → α → Prop) [DecidableRel r]
    (xs ys : List α) :
    List.insertionSort r (xs ++ ys) = xs.foldr (List.orderedInsert r)
      (List.insertionSort r ys) := by
  induction xs with
  | nil => rfl
  | cons x xs2 ih => simp [List.insertionSort, ih]

/-- Members of the dropped run of a sorted list are above the pivot. -/
theorem sorted_dropWhile_ge {α : Type} (r : α → α → Prop) [DecidableRel r]
    [IsTrans α r] (b : α) (S : List α) (hS : List.Sorted r S) :
    ∀ t ∈ S.dropWhile (fun y => decide ¬ r b y), r b t := by
  induction S with
  | nil => intro t ht; simp at ht
  | cons s S2 ih =>
    intro t ht
    rw [List.dropWhile_cons] at ht
    by_cases hp : (decide ¬ r b s) = true
    · rw [if_pos hp] at ht
      exact ih (List.Sorted.of_cons hS) t ht
    · rw [if_neg hp] at ht
      have hbs : r b s := by
        by_contra hc
        exact hp (by simpa using hc)
      rcases List.mem_cons.mp ht with h | h
      · exact h ▸ hbs
      · exact Trans.trans hbs (List.rel_of_sorted_cons hS t h)

/-- Folding a constant-key block into the flatMap of a key-split list
inserts the block at the split point. -/
theorem foldr_block_sorted (f : String) (B : String → List Importer)
    (hB : ∀ g, ∀ imp ∈ B g, imp.sourceFile = g)
    (T D : List String)
    (hT : ∀ t ∈ T, ¬ strLe f t)
    (hD : ∀ t ∈ D, strLe f t) :
    (B f).foldr (List.orderedInsert importerLe) (List.flatMap (T ++ D) B)
      = List.flatMap (T ++ f :: D) B := by
  have h1 : List.flatMap (T ++ D) B = List.flatMap T B ++ List.flatMap D B := by simp
  rw [h1]
  rw [foldr_orderedInsert_block importerLe (B f) (List.flatMap T B) (List.flatMap D B)
    ?hA ?hC ?hbs]
  · simp
  case hA =>
    intro b hb y hy
    rcases List.mem_flatMap.mp hy with ⟨t, ht, hyB⟩
    unfold importerLe
    rw [hB f b hb, hB t y hyB]
    exact hT t ht
  case hC =>
    intro b hb y hy
    rcases List.mem_flatMap.mp hy with ⟨t, ht, hyB⟩
    unfold importerLe
    rw [hB f b hb, hB t y hyB]
    exact hD t ht
  case hbs =>
    intro b hb b2 hb2
    unfold importerLe
    rw [hB f b hb, hB f b2 hb2]
    unfold localeCmp
    rw [charListCmp_self]
    simp

/-- Stable insertion sort of a concatenation of constant-key blocks is
the concatenation of the blocks in key order: the importers collected per
file are sorted by moving whole per-file blocks. -/
theorem insertionSort_flatMap_blocks (K : List String) (B : String → List Importer)
    (hB : ∀ f, ∀ imp ∈ B f, imp.sourceFile = f) :
    List.insertionSort importerLe (K.flatMap B)
      = (List.insertionSort strLe K).flatMap B := by
  induction K with
  | nil => rfl
  | cons f K2 ih =>
    rw [show (f :: K2).flatMap B = B f ++ K2.flatMap B by simp]
    rw [insertionSort_append_foldr, ih]
    rw [show List.insertionSort strLe (f :: K2)
        = List.orderedInsert strLe f (List.insertionSort strLe K2) by
      simp [List.insertionSort]]
    rw [List.orderedInsert_eq_take_drop]
    have hsorted := List.sorted_insertionSort strLe K2
    have hsplit : (List.insertionSort strLe K2).takeWhile (fun y => decide ¬ strLe f y)
        ++ (List.insertionSort strLe K2).dropWhile (fun y => decide ¬ strLe f y)
        = List.insertionSort strLe K2 :=
      List.takeWhile_append_dropWhile (fun y => decide ¬ strLe f y)
        (List.insertionSort strLe K2)
    conv_lhs => rw [← hsplit]
    apply foldr_block_sorted f B hB
    · intro t ht
      have := List.mem_takeWhile_imp ht
      simpa using this
    · intro t ht
      exact sorted_dropWhile_ge strLe f _ hsorted t ht

/-- Ordered insertion commutes with mapping along a relation-preserving
function. -/
theorem orderedInsert_map {α β : Type} (r : β → β → Prop) (rq : α → α → Prop)
    [DecidableRel r] [DecidableRel rq] (g : α → β)
    (hrel : ∀ a b, r (g a) (g b) ↔ rq a b) (a : α) (l : List α) :
    List.orderedInsert r (g a) (l.map g) = (List.orderedInsert rq a l).map g := by
  induction l with
  | nil => rfl
  | cons b t ih =>
    simp only [List.map_cons, List.orderedInsert]
    by_cases h : rq a b
    · rw [if_pos ((hrel a b).mpr h), if_pos h]
      simp
    · rw [if_neg (fun hc => h ((hrel a b).mp hc)), if_neg h]
      simp [ih]

/-- Insertion sort commutes with mapping along a relation-preserving
function. -/
theorem insertionSort_map {α β : Type} (r : β → β → Prop) (rq : α → α → Prop)
    [DecidableRel r] [DecidableRel rq] (g : α → β)
    (hrel : ∀ a b, r (g a) (g b) ↔ rq a b) (l : List α) :
    List.insertionSort r (l.map g) = (List.insertionSort rq l).map g := by
  induction l with
  | nil => rfl
  | cons a t ih =>
    simp only [List.map_cons, List.insertionSort, ih]
    exact orderedInsert_map r rq g hrel a (List.insertionSort rq t)

/-! ## Grouping structure lemmas -/

/-- Membership in the deduplicated key list. -/
theorem mem_dedupKeysAux (l : List String) :
    ∀ seen x, x ∈ dedupKeysAux seen l ↔ x ∈ l ∧ x ∉ seen := by
  induction l with
  | nil => intro seen x; simp [dedupKeysAux]
  | cons k rest ih =>
    intro seen x
    unfold dedupKeysAux
    by_cases hk : k ∈ seen
    · rw [if_pos hk, ih seen x]
      constructor
      · rintro ⟨h1, h2⟩
        exact ⟨by simp [h1], h2⟩
      · rintro ⟨h1, h2⟩
        rcases List.mem_cons.mp h1 with h | h
        · exact absurd (h ▸ hk) h2
        · exact ⟨h, h2⟩
    · rw [if_neg hk]
      constructor
      · intro hx
        rcases List.mem_cons.mp hx with h | h
        · exact ⟨by simp [h], h ▸ hk⟩
        · have := (ih (k :: seen) x).mp h
          exact ⟨by simp [this.1], fun hc => this.2 (by simp [hc])⟩
      · rintro ⟨h1, h2⟩
        rcases List.mem_cons.mp h1 with h | h
        · exact h ▸ List.mem_cons_self k _
        · by_cases hxk : x = k
          · exact hxk ▸ List.mem_cons_self k _
          · exact List.mem_cons_of_mem k ((ih (k :: seen) x).mpr
              ⟨h, fun hc => (List.mem_cons.mp hc).elim hxk h2⟩)

/-- The deduplicated key list has no duplicates. -/
theorem dedupKeysAux_nodup (l : List String) : ∀ seen, (dedupKeysAux seen l).Nodup := by
  induction l with
  | nil => intro seen; simp [dedupKeysAux]
  | cons k rest ih =>
    intro seen
    unfold dedupKeysAux
    by_cases hk : k ∈ seen
    · rw [if_pos hk]; exact ih seen
    · rw [if_neg hk]
      refine List.Nodup.cons ?_ (ih (k :: seen))
      intro hc
      exact ((mem_dedupKeysAux rest (k :: seen) k).mp hc).2 (by simp)

/-- Filtering distributes over flatMap. -/
theorem filterMap_flatMap {α β γ : Type} (l : List α) (g : α → List β) (h : β → Option γ) :
    (l.flatMap g).filterMap h = l.flatMap (fun a => (g a).filterMap h) := by
  induction l with
  | nil => rfl
  | cons a t ih => simp [List.filterMap_append, ih]

/-- The directory-scan loop is the flatMap of its per-file bodies. -/
theorem dirFilesFold_eq (fs : FS) (im : Option ImportMap) (tc : Option TsConfig)
    (ntp : String) (files : List String) :
    dirFilesFold fs im tc ntp files =
      (files.flatMap (fun f => (dirFileEntries fs im tc ntp f).1),
       files.flatMap (fun f => (dirFileEntries fs im tc ntp f).2)) := by
  induction files with
  | nil => rfl
  | cons f rest ih => simp [dirFilesFold, ih]

/-- Every entry collected from one file carries that file as the
importer source. -/
theorem dirImportsFold_sourceFile (fs : FS) (im : Option ImportMap) (tc : Option TsConfig)
    (ntp : String) (f : String) (imps : List ImportStatement)
    (e : String × Importer) (h : e ∈ (dirImportsFold fs im tc ntp f imps).1) :
    e.2.sourceFile = f := by
  induction imps with
  | nil => simp [dirImportsFold] at h
  | cons imp rest ih =>
    unfold dirImportsFold at h
    by_cases hdyn : imp.isDynamic = true
    · rw [if_pos hdyn] at h
      exact ih h
    · rw [if_neg hdyn] at h
      cases hres : resolveImportPath fs f imp.module im tc with
      | none =>
        rw [hres] at h
        exact ih h
      | some rp =>
        rw [hres] at h
        by_cases hm : strStartsWith (fs.canon rp) ntp = true
        · simp only [if_pos hm, List.mem_cons] at h
          rcases h with h | h
          · rw [h]
          · exact ih h
        · simp only [if_neg hm] at h
          exact ih h

/-- Every entry of a per-file body carries that file as the importer
source. -/
theorem dirFileEntries_sourceFile (fs : FS) (im : Option ImportMap) (tc : Option TsConfig)
    (ntp : String) (f : String) (e : String × Importer)
    (h : e ∈ (dirFileEntries fs im tc ntp f).1) : e.2.sourceFile = f := by
  unfold dirFileEntries at h
  by_cases h1 : strStartsWith (fs.canon f) ntp = true
  · rw [if_pos (by exact_mod_cast h1)] at h
    simp at h
  · rw [if_neg (by exact_mod_cast h1)] at h
    cases hex : fs.existsE f with
    | error e2 => rw [hex] at h; simp at h
    | ok b =>
      cases b with
      | false => rw [hex] at h; simp at h
      | true =>
        rw [hex] at h
        cases hpi : parseImportsE fs f with
        | error e2 =>
          rw [hpi] at h
          cases e2 <;> simp at h
        | ok imps =>
          rw [hpi] at h
          exact dirImportsFold_sourceFile fs im tc ntp f imps e h

/-! ## Claims -/

/-- C1 (code bug): the spec and the code comments say a tsconfig paths
pattern with a `*` wildcard matches specifiers, captures the wildcard
span and substitutes it into the replacement template.  The code performs
the wildcard-to-group replacement before regex-escaping, so the escape
pass escapes the generated `(.*)` too: a pattern containing `*` matches
only the literal specifier text `pattern-with-(.*)` and never captures.
At the failing input the natural specifier is not resolved at all, and
the only specifier the pattern accepts resolves to a path containing an
unsubstituted `*`. -/
theorem c1_paths_wildcard_is_broken :
    resolveImportPath fsAbsent "/r/src/a.ts" "@app/locale" none (some tsWildcard) = none ∧
    tsPatternMatches "@app/*" "@app/locale" = false ∧
    tsPatternMatches "@app/*" "@app/(.*)" = true ∧
    resolveImportPath fsAbsent "/r/src/a.ts" "@app/(.*)" none (some tsWildcard) =
      some "/r/src/app/*" :=
  ⟨rfl, rfl, rfl, rfl⟩

/-- C2 (counterexample): for a relative specifier resolving to an
existing directory the source returns the directory path itself, not the
first existing `index.<ext>` file: `existsSync(resolved)` is true for
directories and returns before the index probe is reached. -/
theorem c2_dir_index_counterexample :
    fsDirIndex.stA "/r/d" = PathState.dir ∧
    fsDirIndex.stA "/r/d/index.ts" = PathState.file ∧
    resolveImportPath fsDirIndex "/r/a.ts" "./d" none none = some "/r/d" ∧
    resolveImportPath fsDirIndex "/r/a.ts" "./d" none none ≠ some "/r/d/index.ts" := by
  refine ⟨rfl, rfl, rfl, ?_⟩
  decide

/-- C2 (amended): for every relative specifier whose resolution against
the importer directory is an existing directory — when no alias or
path-map strategy intercepts — `resolveImportPath` returns the resolved
directory path itself; the index-file probing is unreachable for existing
directories because the literal existence check precedes it. -/
theorem c2_dir_returns_directory (fs : FS) (importerPath importPath : String)
    (im : Option ImportMap) (tc : Option TsConfig)
    (hAlias : aliasStage fs.cwd importerPath importPath im = none)
    (hTs : tsStage fs.cwd importerPath importPath tc = none)
    (hRel : strStartsWith importPath "./" = true ∨ strStartsWith importPath "../" = true)
    (hDir : fs.stA (resolvePosix fs.cwd [dirnameP importerPath, importPath]) = .dir) :
    resolveImportPath fs importerPath importPath im tc =
      some (resolvePosix fs.cwd [dirnameP importerPath, importPath]) := by
  have hcond : (strStartsWith importPath "./" || strStartsWith importPath "../") = true := by
    rcases hRel with h | h <;> simp [h]
  unfold resolveImportPath resolveImportPathE
  rw [hAlias, hTs, hcond]
  simp only [FS.existsE, hDir, if_true]
  rfl

/-- C2 (witness): the amended statement evaluated at the concrete
directory fixture. -/
theorem c2_dir_returns_directory_witness :
    resolveImportPath fsDirIndex "/r/a.ts" "./d" none none =
      some (resolvePosix fsDirIndex.cwd [dirnameP "/r/a.ts", "./d"]) :=
  c2_dir_returns_directory fsDirIndex "/r/a.ts" "./d" none none rfl rfl
    (Or.inl rfl) (by decide)

/-- C4 (counterexample): the exact-match test on the alias map is a JS
truthiness check, so a specifier present verbatim but mapped to the empty
string is not resolved by the exact-match strategy: it falls to the
prefix loop, where the earlier key "a" wins and produces a different
result than exact-match resolution would. -/
theorem c4_alias_exact_counterexample :
    lookupEntry [("a", "./x.ts"), ("ab", "")] "ab" = some "" ∧
    resolveImportPath fsAbsent "/r/m.ts" "ab" (some imEmptyRepl) none = some "/r/x.ts/b" ∧
    resolvePosix fsAbsent.cwd [dirnameP "/r/m.ts", ""] = "/r" ∧
    resolveImportPath fsAbsent "/r/m.ts" "ab" (some imEmptyRepl) none ≠
      some (resolvePosix fsAbsent.cwd [dirnameP "/r/m.ts", ""]) := by
  refine ⟨rfl, rfl, rfl, ?_⟩
  decide

/-- C4 (amended): for every specifier present verbatim as an alias-map
key with a non-empty replacement, `resolveImportPath` resolves it by the
exact-match strategy — the replacement resolved against the importer
directory — and any tsconfig paths configuration is ignored (the result
does not depend on `tc`). -/
theorem c4_alias_exact_nonempty (fs : FS) (importerPath importPath repl : String)
    (entries : List (String × String)) (tc : Option TsConfig)
    (hLook : lookupEntry entries importPath = some repl) (hNe : repl ≠ "") :
    resolveImportPath fs importerPath importPath (some ⟨some entries⟩) tc =
      some (resolvePosix fs.cwd [dirnameP importerPath, repl]) := by
  unfold resolveImportPath resolveImportPathE aliasStage
  simp [hLook, hNe]
  rfl

/-- C4 (witness): the amended statement at a concrete input, with a
tsconfig whose pattern also matches the specifier. -/
theorem c4_alias_exact_nonempty_witness :
    resolveImportPath fsAbsent "/r/m.ts" "button" (some ⟨some [("button", "./button.tsx")]⟩)
        (some ⟨some ⟨some ".", some [("button", ["./elsewhere.tsx"])]⟩⟩) =
      some (resolvePosix fsAbsent.cwd [dirnameP "/r/m.ts", "./button.tsx"]) :=
  c4_alias_exact_nonempty fsAbsent "/r/m.ts" "button" "./button.tsx"
    [("button", "./button.tsx")] (some ⟨some ⟨some ".", some [("button", ["./elsewhere.tsx"])]⟩⟩)
    rfl (by decide)

/-- C5 (confirmed): for a relative specifier — no alias or path-map
strategy intercepting — whose literal resolution is absent and whose
every extension-probed variant is absent, `resolveImportPath` returns the
original un-suffixed resolved path as a best-effort value instead of
`null`.  (With the literal path absent the directory stat fails, so no
index file can be returned either.) -/
theorem c5_relative_best_effort (fs : FS) (importerPath importPath : String)
    (im : Option ImportMap) (tc : Option TsConfig)
    (hAlias : aliasStage fs.cwd importerPath importPath im = none)
    (hTs : tsStage fs.cwd importerPath importPath tc = none)
    (hRel : strStartsWith importPath "./" = true ∨ strStartsWith importPath "../" = true)
    (hAbsent : fs.stA (resolvePosix fs.cwd [dirnameP importerPath, importPath]) = .absent)
    (hExts : ∀ ext ∈ extensions,
      fs.stA (extBase (resolvePosix fs.cwd [dirnameP importerPath, importPath]) ++ ext)
        = .absent) :
    resolveImportPath fs importerPath importPath im tc =
      some (resolvePosix fs.cwd [dirnameP importerPath, importPath]) := by
  have hcond : (strStartsWith importPath "./" || strStartsWith importPath "../") = true := by
    rcases hRel with h | h <;> simp [h]
  have hip : indexProbe fs (resolvePosix fs.cwd [dirnameP importerPath, importPath]) = none :=
    indexProbe_none fs _ (by rw [hAbsent]; intro hc; exact PathState.noConfusion hc)
  have hloop := extLoopE_none fs
    (extBase (resolvePosix fs.cwd [dirnameP importerPath, importPath])) extensions hExts
  unfold resolveImportPath resolveImportPathE
  rw [hAlias, hTs, hcond]
  simp only [FS.existsE, hAbsent, hip, hloop]
  cases hx : hasExtensionB (resolvePosix fs.cwd [dirnameP importerPath, importPath]) <;> rfl

/-- C5 (witness): the best-effort fallback at a concrete input where
nothing exists. -/
theorem c5_relative_best_effort_witness :
    resolveImportPath fsAbsent "/r/a.ts" "./b" none none =
      some (resolvePosix fsAbsent.cwd [dirnameP "/r/a.ts", "./b"]) :=
  c5_relative_best_effort fsAbsent "/r/a.ts" "./b" none none rfl rfl (Or.inl rfl)
    rfl (by decide)

/-- C8 (confirmed): `resolveImportPath` never propagates an error — any
error the body throws (all file-system probes may throw) is caught by the
outer catch and the call returns `null` for that specifier. -/
theorem c8_resolver_catches_all (fs : FS) (importerPath importPath : String)
    (im : Option ImportMap) (tc : Option TsConfig) (e : JsErr)
    (h : resolveImportPathE fs importerPath importPath im tc = .error e) :
    resolveImportPath fs importerPath importPath im tc = none := by
  unfold resolveImportPath
  rw [h]

/-- C8 (witness): a snapshot whose probes all throw makes the body error,
and the call still returns `null`. -/
theorem c8_resolver_catches_all_witness :
    resolveImportPathE fsErrAll "/r/a.ts" "./b" none none =
      .error (.generic ("stat error: " ++ "/r/b")) ∧
    resolveImportPath fsErrAll "/r/a.ts" "./b" none none = none :=
  ⟨rfl, c8_resolver_catches_all fsErrAll "/r/a.ts" "./b" none none
    (.generic ("stat error: " ++ "/r/b")) rfl⟩

/-- C6 (confirmed): when the resolved target neither exists literally nor
under any of the six probed extensions, `findImporters` aborts the whole
call with a `NotFound` error and produces no result set. -/
theorem c6_missing_target_aborts (fs : FS) (target : String) (files : List String)
    (rootP : String)
    (hAbsent : fs.stA (resolvePosix fs.cwd [target]) = .absent)
    (hExts : ∀ ext ∈ extensions,
      fs.stA (extBase (resolvePosix fs.cwd [target]) ++ ext) = .absent) :
    findImportersE fs target files rootP =
      .error (.notFound ("Target file not found: " ++ target)) := by
  have hnt : normalizeTargetE fs target =
      .error (.notFound ("Target file not found: " ++ target)) := by
    unfold normalizeTargetE FS.statIsDirE FS.existsE
    simp only [hAbsent, extLoopE_none fs _ extensions hExts]
    rfl
  unfold findImportersE
  rw [hnt]

/-- C6 (witness): the concrete scan snapshot with a missing target. -/
theorem c6_missing_target_aborts_witness :
    findImportersE fsScan "/r/missing" ["/r/good.ts"] "/r" =
      .error (.notFound ("Target file not found: " ++ "/r/missing")) :=
  c6_missing_target_aborts fsScan "/r/missing" ["/r/good.ts"] "/r" rfl (by decide)

/-- The candidate-file loop distributes over list append, componentwise. -/
theorem filesFold_append (fs : FS) (im : Option ImportMap) (tc : Option TsConfig)
    (ntp : String) (isDir : Bool) (l1 l2 : List String) :
    filesFold fs im tc ntp isDir (l1 ++ l2) =
      ((filesFold fs im tc ntp isDir l1).1 ++ (filesFold fs im tc ntp isDir l2).1,
       (filesFold fs im tc ntp isDir l1).2 ++ (filesFold fs im tc ntp isDir l2).2) := by
  induction l1 with
  | nil => simp [filesFold]
  | cons f rest ih => simp [filesFold, ih]

/-- Any per-file failure — a missing candidate, or a content read that
throws — contributes no results and exactly one console message naming
the file: a warning for the NotFound cases, a `console.error` otherwise. -/
theorem importEntries_failure (fs : FS) (im : Option ImportMap) (tc : Option TsConfig)
    (ntp : String) (isDir : Bool) (bad : String)
    (hns1 : ¬ (isDir = true ∧ strStartsWith (fs.canon bad) ntp = true))
    (hns2 : ¬ (isDir = false ∧ fs.canon bad = ntp))
    (hfail : fs.stA bad = .absent ∨
      (fs.stA bad = .file ∧ ∃ e, fs.readImports bad = .error e)) :
    ∃ entry : LogEntry, importEntries fs im tc ntp isDir bad = ([], [entry]) ∧
      ((fs.stA bad = .absent ∧
          entry = ⟨.warn, "Warning: Skipping non-existent file " ++ bad⟩) ∨
        (∃ m, fs.readImports bad = .error (.notFound m) ∧
          entry = ⟨.warn, "Warning: Skipping file " ++ bad ++ " - " ++ m⟩) ∨
        (∃ m, fs.readImports bad = .error (.generic m) ∧
          entry = ⟨.error, "Error processing " ++ bad⟩)) := by
  have hns2b : ¬ (¬ isDir = true ∧ fs.canon bad = ntp) := by
    intro hc
    apply hns2
    refine ⟨?_, hc.2⟩
    cases isDir with
    | false => rfl
    | true => exact absurd rfl hc.1
  rcases hfail with habs | ⟨hfile, e, herr⟩
  · refine ⟨⟨.warn, "Warning: Skipping non-existent file " ++ bad⟩, ?_, Or.inl ⟨habs, rfl⟩⟩
    unfold importEntries
    rw [if_neg (by exact_mod_cast hns1), if_neg (by exact_mod_cast hns2b)]
    have hex : fs.existsE bad = .ok false := by
      unfold FS.existsE
      rw [habs]
    rw [hex]
  · have hex : fs.existsE bad = .ok true := by
      unfold FS.existsE
      rw [hfile]
    cases e with
    | notFound m =>
      refine ⟨⟨.warn, "Warning: Skipping file " ++ bad ++ " - " ++ m⟩, ?_,
        Or.inr (Or.inl ⟨m, herr, rfl⟩)⟩
      unfold importEntries
      rw [if_neg (by exact_mod_cast hns1), if_neg (by exact_mod_cast hns2b), hex]
      show (match parseImportsE fs bad with
        | .error (.notFound m) => _
        | .error (.generic _) => _
        | .ok imps => _) = _
      rw [show parseImportsE fs bad = .error (.notFound m) from herr]
    | generic m =>
      refine ⟨⟨.error, "Error processing " ++ bad⟩, ?_,
        Or.inr (Or.inr ⟨m, herr, rfl⟩)⟩
      unfold importEntries
      rw [if_neg (by exact_mod_cast hns1), if_neg (by exact_mod_cast hns2b), hex]
      show (match parseImportsE fs bad with
        | .error (.notFound m) => _
        | .error (.generic _) => _
        | .ok imps => _) = _
      rw [show parseImportsE fs bad = .error (.generic m) from herr]

/-- C7 (amended): any error while processing one candidate file — the
file missing, vanished mid-scan (its read throws NotFound), or
unreadable content (any other thrown error) — is caught inside the
per-file loop, the file is skipped, a console message naming the file is
emitted — `console.warn` for the NotFound cases, `console.error`
otherwise — and the results for all other files are produced unchanged:
removing the failing file from the list yields the same result list. -/
theorem c7_per_file_error_skipped (fs : FS) (target rootP bad : String)
    (files1 files2 : List String) (td : String × Bool)
    (hnt : normalizeTargetE fs target = .ok td)
    (hfail : fs.stA bad = .absent ∨
      (fs.stA bad = .file ∧ ∃ e, fs.readImports bad = .error e))
    (hns1 : ¬ (td.2 = true ∧ strStartsWith (fs.canon bad) td.1 = true))
    (hns2 : ¬ (td.2 = false ∧ fs.canon bad = td.1)) :
    ∃ res lgA lgB,
      findImportersE fs target (files1 ++ bad :: files2) rootP = .ok (res, lgA) ∧
      findImportersE fs target (files1 ++ files2) rootP = .ok (res, lgB) ∧
      ((fs.stA bad = .absent ∧
          LogEntry.mk .warn ("Warning: Skipping non-existent file " ++ bad) ∈ lgA) ∨
        (∃ m, fs.readImports bad = .error (.notFound m) ∧
          LogEntry.mk .warn ("Warning: Skipping file " ++ bad ++ " - " ++ m) ∈ lgA) ∨
        (∃ m, fs.readImports bad = .error (.generic m) ∧
          LogEntry.mk .error ("Error processing " ++ bad) ∈ lgA)) ∧
      ∀ r ∈ res, r.sourceFile ≠ bad := by
  obtain ⟨entry, hbad, hcase⟩ := importEntries_failure fs (loadedImportMap fs rootP).1
    (loadedTsConfig fs rootP).1 td.1 td.2 bad hns1 hns2 hfail
  have hsplitA := filesFold_append fs (loadedImportMap fs rootP).1
    (loadedTsConfig fs rootP).1 td.1 td.2 files1 (bad :: files2)
  have hsplitB := filesFold_append fs (loadedImportMap fs rootP).1
    (loadedTsConfig fs rootP).1 td.1 td.2 files1 files2
  have hA : findImportersE fs target (files1 ++ bad :: files2) rootP =
      .ok ((filesFold fs (loadedImportMap fs rootP).1 (loadedTsConfig fs rootP).1
              td.1 td.2 files1).1 ++
            (filesFold fs (loadedImportMap fs rootP).1 (loadedTsConfig fs rootP).1
              td.1 td.2 files2).1,
           (loadedImportMap fs rootP).2 ++ (loadedTsConfig fs rootP).2 ++
            ((filesFold fs (loadedImportMap fs rootP).1 (loadedTsConfig fs rootP).1
                td.1 td.2 files1).2 ++
             (entry ::
              (filesFold fs (loadedImportMap fs rootP).1 (loadedTsConfig fs rootP).1
                td.1 td.2 files2).2))) := by
    unfold findImportersE
    rw [hnt]
    show Except.ok ((filesFold fs (loadedImportMap fs rootP).1 (loadedTsConfig fs rootP).1
        td.1 td.2 (files1 ++ bad :: files2)).1,
      (loadedImportMap fs rootP).2 ++ (loadedTsConfig fs rootP).2 ++
        (filesFold fs (loadedImportMap fs rootP).1 (loadedTsConfig fs rootP).1
          td.1 td.2 (files1 ++ bad :: files2)).2) = _
    rw [hsplitA]
    rw [show filesFold fs (loadedImportMap fs rootP).1 (loadedTsConfig fs rootP).1
        td.1 td.2 (bad :: files2) =
        ((importEntries fs (loadedImportMap fs rootP).1 (loadedTsConfig fs rootP).1
            td.1 td.2 bad).1 ++
          (filesFold fs (loadedImportMap fs rootP).1 (loadedTsConfig fs rootP).1
            td.1 td.2 files2).1,
         (importEntries fs (loadedImportMap fs rootP).1 (loadedTsConfig fs rootP).1
            td.1 td.2 bad).2 ++
          (filesFold fs (loadedImportMap fs rootP).1 (loadedTsConfig fs rootP).1
            td.1 td.2 files2).2) from rfl]
    rw [hbad]
    simp
  have hB : findImportersE fs target (files1 ++ files2) rootP =
      .ok ((filesFold fs (loadedImportMap fs rootP).1 (loadedTsConfig fs rootP).1
              td.1 td.2 files1).1 ++
            (filesFold fs (loadedImportMap fs rootP).1 (loadedTsConfig fs rootP).1
              td.1 td.2 files2).1,
           (loadedImportMap fs rootP).2 ++ (loadedTsConfig fs rootP).2 ++
            ((filesFold fs (loadedImportMap fs rootP).1 (loadedTsConfig fs rootP).1
                td.1 td.2 files1).2 ++
             (filesFold fs (loadedImportMap fs rootP).1 (loadedTsConfig fs rootP).1
                td.1 td.2 files2).2)) := by
    unfold findImportersE
    rw [hnt]
    show Except.ok ((filesFold fs (loadedImportMap fs rootP).1 (loadedTsConfig fs rootP).1
        td.1 td.2 (files1 ++ files2)).1,
      (loadedImportMap fs rootP).2 ++ (loadedTsConfig fs rootP).2 ++
        (filesFold fs (loadedImportMap fs rootP).1 (loadedTsConfig fs rootP).1
          td.1 td.2 (files1 ++ files2)).2) = _
    rw [hsplitB]
  refine ⟨_, _, _, hA, hB, ?_, ?_⟩
  · have hmem : entry ∈ (loadedImportMap fs rootP).2 ++ (loadedTsConfig fs rootP).2 ++
        ((filesFold fs (loadedImportMap fs rootP).1 (loadedTsConfig fs rootP).1
            td.1 td.2 files1).2 ++
          (entry ::
            (filesFold fs (loadedImportMap fs rootP).1 (loadedTsConfig fs rootP).1
              td.1 td.2 files2).2)) := by simp
    rcases hcase with ⟨h1, h2⟩ | ⟨m, h1, h2⟩ | ⟨m, h1, h2⟩
    · exact Or.inl ⟨h1, by rw [← h2]; exact hmem⟩
    · exact Or.inr (Or.inl ⟨m, h1, by rw [← h2]; exact hmem⟩)
    · exact Or.inr (Or.inr ⟨m, h1, by rw [← h2]; exact hmem⟩)
  · intro r hr
    rcases List.mem_append.mp hr with h | h
    · obtain ⟨f, _, hrf⟩ := mem_filesFold fs _ _ td.1 td.2 files1 r h
      obtain ⟨hsf, _, _, _⟩ := importEntries_not_skipped fs _ _ td.1 td.2 f r hrf
      intro hc
      rw [hc] at hsf
      rw [← hsf] at hrf
      rw [hbad] at hrf
      simp at hrf
    · obtain ⟨f, _, hrf⟩ := mem_filesFold fs _ _ td.1 td.2 files2 r h
      obtain ⟨hsf, _, _, _⟩ := importEntries_not_skipped fs _ _ td.1 td.2 f r hrf
      intro hc
      rw [hc] at hsf
      rw [← hsf] at hrf
      rw [hbad] at hrf
      simp at hrf

/-- C7 (witness): the amended statement at the scan fixture in the
NotFound branch — `/r/vanish.ts` exists but vanishes mid-scan, so its
content read throws NotFound. -/
theorem c7_per_file_error_skipped_witness :
    ∃ res lgA lgB,
      findImportersE fsScan "/r/t.ts" (["/r/good.ts"] ++ "/r/vanish.ts" :: []) "/r" =
        .ok (res, lgA) ∧
      findImportersE fsScan "/r/t.ts" (["/r/good.ts"] ++ []) "/r" = .ok (res, lgB) ∧
      ((fsScan.stA "/r/vanish.ts" = .absent ∧
          LogEntry.mk .warn ("Warning: Skipping non-existent file " ++ "/r/vanish.ts")
            ∈ lgA) ∨
        (∃ m, fsScan.readImports "/r/vanish.ts" = .error (.notFound m) ∧
          LogEntry.mk .warn ("Warning: Skipping file " ++ "/r/vanish.ts" ++ " - " ++ m)
            ∈ lgA) ∨
        (∃ m, fsScan.readImports "/r/vanish.ts" = .error (.generic m) ∧
          LogEntry.mk .error ("Error processing " ++ "/r/vanish.ts") ∈ lgA)) ∧
      ∀ r ∈ res, r.sourceFile ≠ "/r/vanish.ts" :=
  c7_per_file_error_skipped fsScan "/r/t.ts" "/r" "/r/vanish.ts" ["/r/good.ts"] []
    ("/r/t.ts", false) rfl (Or.inr ⟨rfl, JsErr.notFound "gone", rfl⟩)
    (by decide) (by decide)

/-- C7 (counterexample): the claim says a per-file processing error is
reported as a warning naming the file.  At this concrete input the file
`/r/bad.ts` has unreadable content; the scan succeeds, skips it and
produces the other file result, but the whole console log consists of one
`console.error` entry — no warning is emitted at all. -/
theorem c7_read_error_is_not_warned :
    fsScan.readImports "/r/bad.ts" = .error (.generic "boom") ∧
    findImportersE fsScan "/r/t.ts" ["/r/good.ts", "/r/bad.ts"] "/r" =
      .ok ([⟨"/r/good.ts", "./t.ts", "/r/t.ts", 1⟩],
           [⟨.error, "Error processing " ++ "/r/bad.ts"⟩]) ∧
    (([⟨.error, "Error processing " ++ "/r/bad.ts"⟩] : List LogEntry).filter
        (fun e => e.level == .warn)) = [] :=
  ⟨rfl, rfl, rfl⟩

/-- The grouped, sorted directory-scan output is invariant under
permutation of the candidate-file list. -/
theorem dirGroups_perm_eq (fs : FS) (im : Option ImportMap) (tc : Option TsConfig)
    (ntp : String) (files1 files2 : List String) (hperm : files1.Perm files2) :
    (sortGroups (groupsPre (dirFilesFold fs im tc ntp files1).1)).map sortImporters =
    (sortGroups (groupsPre (dirFilesFold fs im tc ntp files2).1)).map sortImporters := by
  have hE1 : (dirFilesFold fs im tc ntp files1).1
      = files1.flatMap (fun f => (dirFileEntries fs im tc ntp f).1) := by
    rw [dirFilesFold_eq]
  have hE2 : (dirFilesFold fs im tc ntp files2).1
      = files2.flatMap (fun f => (dirFileEntries fs im tc ntp f).1) := by
    rw [dirFilesFold_eq]
  have hcanon : ∀ E : List (String × Importer),
      (sortGroups (groupsPre E)).map sortImporters =
      (List.insertionSort strLe (insertionKeys E)).map
        (fun k => ⟨k, List.insertionSort importerLe (groupFor E k)⟩) := by
    intro E
    unfold sortGroups groupsPre
    rw [insertionSort_map groupLe strLe
      (fun k => (⟨k, groupFor E k⟩ : ImportGroup)) (fun a b => Iff.rfl)]
    rw [List.map_map]
    rfl
  rw [hcanon, hcanon]
  have hpermE : ((dirFilesFold fs im tc ntp files1).1).Perm
      ((dirFilesFold fs im tc ntp files2).1) := by
    rw [hE1, hE2]
    exact List.Perm.flatMap_right _ hperm
  have hmem : ∀ x, x ∈ insertionKeys (dirFilesFold fs im tc ntp files1).1 ↔
      x ∈ insertionKeys (dirFilesFold fs im tc ntp files2).1 := by
    intro x
    unfold insertionKeys
    rw [mem_dedupKeysAux ((dirFilesFold fs im tc ntp files1).1.map (fun e => e.1)) [] x]
    rw [mem_dedupKeysAux ((dirFilesFold fs im tc ntp files2).1.map (fun e => e.1)) [] x]
    simp only [List.not_mem_nil, not_false_iff, and_true]
    exact (hpermE.map (fun e => e.1)).mem_iff
  have hnd1 := dedupKeysAux_nodup ((dirFilesFold fs im tc ntp files1).1.map (fun e => e.1)) []
  have hnd2 := dedupKeysAux_nodup ((dirFilesFold fs im tc ntp files2).1.map (fun e => e.1)) []
  have hkperm : (insertionKeys (dirFilesFold fs im tc ntp files1).1).Perm
      (insertionKeys (dirFilesFold fs im tc ntp files2).1) :=
    (List.perm_ext_iff_of_nodup hnd1 hnd2).mpr hmem
  have hkeys : List.insertionSort strLe (insertionKeys (dirFilesFold fs im tc ntp files1).1)
      = List.insertionSort strLe (insertionKeys (dirFilesFold fs im tc ntp files2).1) :=
    List.eq_of_perm_of_sorted
      ((List.perm_insertionSort strLe _).trans
        (hkperm.trans (List.perm_insertionSort strLe _).symm))
      (List.sorted_insertionSort strLe _) (List.sorted_insertionSort strLe _)
  rw [hkeys]
  have hcontent : ∀ k, List.insertionSort importerLe
        (groupFor (dirFilesFold fs im tc ntp files1).1 k)
      = List.insertionSort importerLe (groupFor (dirFilesFold fs im tc ntp files2).1 k) := by
    intro k
    have hg : ∀ (E : List (String × Importer)) (fl : List String),
        E = fl.flatMap (fun f => (dirFileEntries fs im tc ntp f).1) →
        groupFor E k = fl.flatMap (fun f =>
          ((dirFileEntries fs im tc ntp f).1).filterMap
            (fun e => if e.1 = k then some e.2 else none)) := by
      intro E fl hEf
      rw [hEf]
      unfold groupFor
      exact filterMap_flatMap fl _ _
    rw [hg _ files1 hE1, hg _ files2 hE2]
    have hBkey : ∀ f, ∀ imp ∈ ((dirFileEntries fs im tc ntp f).1).filterMap
        (fun e => if e.1 = k then some e.2 else none), imp.sourceFile = f := by
      intro f imp himp
      rcases List.mem_filterMap.mp himp with ⟨e, he, hsel⟩
      have heq : e.2 = imp := by
        by_cases hek : e.1 = k
        · rw [if_pos hek] at hsel
          exact Option.some.inj hsel
        · rw [if_neg hek] at hsel
          exact absurd hsel (by simp)
      rw [← heq]
      exact dirFileEntries_sourceFile fs im tc ntp f e he
    rw [insertionSort_flatMap_blocks files1 _ hBkey,
        insertionSort_flatMap_blocks files2 _ hBkey]
    rw [List.eq_of_perm_of_sorted
      ((List.perm_insertionSort strLe files1).trans
        (hperm.trans (List.perm_insertionSort strLe files2).symm))
      (List.sorted_insertionSort strLe files1) (List.sorted_insertionSort strLe files2)]
  have hfun : (fun k => (⟨k, List.insertionSort importerLe
        (groupFor (dirFilesFold fs im tc ntp files1).1 k)⟩ : ImportGroup))
      = fun k => ⟨k, List.insertionSort importerLe
        (groupFor (dirFilesFold fs im tc ntp files2).1 k)⟩ :=
    funext (fun k => by rw [hcontent k])
  rw [hfun]

/-- C9 (confirmed): in directory-target mode the grouped output is
deterministic — for any two permutations of the candidate-file list the
returned aggregates are identical, the groups are sorted by the
referenced file's relative path under the sort comparator, and within
each group the importers are sorted by source-file path. -/
theorem c9_dir_grouping_deterministic (fs : FS) (tgt rootP : String)
    (files1 files2 : List String) (res1 res2 : DirectoryImporterResult)
    (lgs1 lgs2 : List LogEntry)
    (hperm : files1.Perm files2)
    (h1 : findDirectoryImportersE fs tgt files1 rootP = .ok (res1, lgs1))
    (h2 : findDirectoryImportersE fs tgt files2 rootP = .ok (res2, lgs2)) :
    res1 = res2 ∧ List.Sorted groupLe res1.groups ∧
      ∀ g ∈ res1.groups, List.Sorted importerLe g.importers := by
  unfold findDirectoryImportersE at h1 h2
  cases hck : checkDirTargetE fs tgt with
  | error e =>
    rw [hck] at h1
    simp at h1
  | ok ntp =>
    rw [hck] at h1 h2
    injection h1 with h1
    injection h2 with h2
    have hres1 : res1 = DirectoryImporterResult.mk tgt rootP
        ((((sortGroups (groupsPre (dirFilesFold fs (loadedImportMap fs rootP).1
            (loadedTsConfig fs rootP).1 ntp files1).1)).map sortImporters).map
              (fun g => g.importers.length)).sum)
        ((sortGroups (groupsPre (dirFilesFold fs (loadedImportMap fs rootP).1
            (loadedTsConfig fs rootP).1 ntp files1).1)).map sortImporters) :=
      (congrArg Prod.fst h1).symm
    have hres2 : res2 = DirectoryImporterResult.mk tgt rootP
        ((((sortGroups (groupsPre (dirFilesFold fs (loadedImportMap fs rootP).1
            (loadedTsConfig fs rootP).1 ntp files2).1)).map sortImporters).map
              (fun g => g.importers.length)).sum)
        ((sortGroups (groupsPre (dirFilesFold fs (loadedImportMap fs rootP).1
            (loadedTsConfig fs rootP).1 ntp files2).1)).map sortImporters) :=
      (congrArg Prod.fst h2).symm
    have hgs := dirGroups_perm_eq fs (loadedImportMap fs rootP).1
      (loadedTsConfig fs rootP).1 ntp files1 files2 hperm
    refine ⟨?_, ?_, ?_⟩
    · rw [hres1, hres2, hgs]
    · rw [hres1]
      show List.Sorted groupLe ((sortGroups (groupsPre _)).map sortImporters)
      exact List.Pairwise.map sortImporters (fun a b hab => hab)
        (List.sorted_insertionSort groupLe _)
    · rw [hres1]
      intro g hg
      rcases List.mem_map.mp hg with ⟨g0, _, hgeq⟩
      rw [← hgeq]
      exact List.sorted_insertionSort importerLe g0.importers

/-- C9 (witness): the determinism statement at a concrete two-file
permutation pair of the directory fixture. -/
theorem c9_dir_grouping_deterministic_witness :
    (["/r/a.ts", "/r/two.ts"] : List String).Perm ["/r/two.ts", "/r/a.ts"] ∧
    (boundaryResult = boundaryResult ∧ List.Sorted groupLe boundaryResult.groups ∧
      ∀ g ∈ boundaryResult.groups, List.Sorted importerLe g.importers) :=
  ⟨by decide,
    c9_dir_grouping_deterministic fsBoundary "/r/foo" "/r"
      ["/r/a.ts", "/r/two.ts"] ["/r/two.ts", "/r/a.ts"]
      boundaryResult boundaryResult [] []
      (by decide) rfl rfl⟩

/-- C10 (confirmed): directory containment is a plain string-prefix test
with no separator-boundary check.  In the fixture, `/r/foo-bar.ts` lies
outside the target directory `/r/foo` but is counted and grouped as a
match (under the escaping relative key "../foo-bar.ts"), while the
candidate file `/r/foosib.ts` — also a sibling whose string extends the
target path — is excluded from processing even though its import of
`/r/foo/in.ts` would genuinely match. -/
theorem c10_prefix_containment_without_boundary :
    strStartsWith (fsBoundary.canon "/r/foo-bar.ts") (fsBoundary.canon "/r/foo") = true ∧
    strStartsWith (fsBoundary.canon "/r/foosib.ts") (fsBoundary.canon "/r/foo") = true ∧
    resolveImportPath fsBoundary "/r/foosib.ts" "./foo/in.ts" none none = some "/r/foo/in.ts" ∧
    findDirectoryImportersE fsBoundary "/r/foo" ["/r/a.ts", "/r/foosib.ts"] "/r" =
      .ok ({ target := "/r/foo", root := "/r", count := 1,
             groups := [⟨"../foo-bar.ts", [⟨"/r/a.ts", "./foo-bar.ts", 1⟩]⟩] }, []) :=
  ⟨rfl, rfl, rfl, rfl⟩

end WhoImportMe
